import Mathlib

/-!
# Verification of the CleanFlow pedestrian-flow simulation engine

This file gives a shallow embedding of the `SimulationEngine` class from
`src/pages/Editor.tsx` (grid geometry, obstacle map, multi-source BFS static
field, dynamic field with decay/diffusion, stochastic agent movement, step,
reset and statistics) and proves or refutes the frozen claims about it.

Modelling conventions:
* JavaScript numbers that only ever hold exact values (coordinates, grid
  sizes, random draws, dynamic-field values, parameters) are modelled as `ℚ`;
  values produced by `Math.exp` / `Math.sqrt` are modelled as `ℝ`.
* `Math.random()` is modelled by an explicit stream `rng : ℕ → ℚ` together
  with a cursor `k : ℕ`; every call to `Math.random()` reads `rng k` and
  advances the cursor, exactly in source order.
* Grids are indexed by `Cell := ℤ × ℤ` (row, column).  The obstacle grid is
  kept as the raw nested array (`List (List Bool)`) because the source
  accepts arrays of any shape; out-of-range JavaScript indexing yields
  `undefined`, which is falsy, modelled by a default of `false`.
* `staticField` values are `ℕ∞` (`ENat`): the source initialises the field
  with `Infinity` and only ever writes natural hop counts into it.
-/

namespace CleanFlow

/-- A grid cell, as a (row, column) pair of integers. -/
abbrev Cell := ℤ × ℤ

/-- Bounds check `0 ≤ row < rows ∧ 0 ≤ col < cols`, as used by
`getNeighbors` and by the deposit guard in `step`. -/
def inBoundsB (rows cols : ℤ) (c : Cell) : Bool :=
  decide (0 ≤ c.1) && decide (c.1 < rows) && decide (0 ≤ c.2) && decide (c.2 < cols)

/-- The eight Moore offsets, in the exact iteration order of the source's
double loop (`dr` outer from -1 to 1, `dc` inner from -1 to 1, skipping
`(0,0)`). -/
def mooreOffsets : List Cell :=
  [(-1, -1), (-1, 0), (-1, 1), (0, -1), (0, 1), (1, -1), (1, 0), (1, 1)]

/-- `SimulationEngine.getNeighbors`: the in-bounds Moore neighbours of
`(row, col)`, in source iteration order. -/
def getNeighbors (rows cols : ℤ) (row col : ℤ) : List Cell :=
  (mooreOffsets.map (fun d => (row + d.1, col + d.2))).filter (inBoundsB rows cols)

/-!
## Static field builder (`SimulationEngine.computeStaticField`)

The source runs a multi-source BFS: every node's cell is seeded at distance
0, then the queue is processed front-to-back, pushing each unvisited
non-obstacle Moore neighbour with distance one more than the popped entry.
The recursion below is fuelled; `computeStaticFieldAux` supplies enough fuel
for the queue to drain completely (proved in `bfsAux_correct`).
-/

/-- One fuelled run of the BFS loop of `computeStaticField`.  A queue entry
is a cell together with its distance.  `visited` and `field` are threaded
exactly as the source mutates its `visited` matrix and `staticField`. -/
def bfsAux (rows cols : ℤ) (obstacle : Cell → Bool) :
    ℕ → List (Cell × ℕ) → Finset Cell → (Cell → ℕ∞) → (Cell → ℕ∞)
  | 0, _, _, field => field
  | _ + 1, [], _, field => field
  | fuel + 1, (c, d) :: rest, visited, field =>
      let ns := (getNeighbors rows cols c.1 c.2).filter
        (fun n => !decide (n ∈ visited) && !obstacle n)
      bfsAux rows cols obstacle fuel
        (rest ++ ns.map (fun n => (n, d + 1)))
        (visited ∪ ns.toFinset)
        (fun x => if x ∈ ns then ((d + 1 : ℕ) : ℕ∞) else field x)

/-- `SimulationEngine.computeStaticField`, as a function of the grid
dimensions, the obstacle predicate and the list of seeded (in-bounds) node
cells.  The seeds are marked visited and written as 0 before the loop runs,
exactly as in the source. -/
def computeStaticFieldAux (rows cols : ℤ) (obstacle : Cell → Bool)
    (seeds : List Cell) : Cell → ℕ∞ :=
  bfsAux rows cols obstacle (rows.toNat * cols.toNat + seeds.length + 1)
    (seeds.map (fun s => (s, 0)))
    seeds.toFinset
    (fun x => if x ∈ seeds then (0 : ℕ∞) else ⊤)

/-!
## Specification-side distance

`ReachesIn s n c` holds when there is a walk of `n` 8-connected hops from
`s` to `c` each of which steps into an in-bounds, non-obstacle cell (the
start cell itself is exempt, matching the BFS, which seeds node cells even
when they are obstacles).
-/

inductive ReachesIn (rows cols : ℤ) (obstacle : Cell → Bool) : Cell → ℕ → Cell → Prop
  | refl (c : Cell) : ReachesIn rows cols obstacle c 0 c
  | step {a : Cell} {n : ℕ} {b c : Cell} :
      ReachesIn rows cols obstacle a n b →
      c ∈ getNeighbors rows cols b.1 b.2 →
      obstacle c = false →
      ReachesIn rows cols obstacle a (n + 1) c

/-- The set of hop counts realising a walk from some seed to `x`. -/
def distSet (rows cols : ℤ) (obstacle : Cell → Bool) (seeds : List Cell)
    (x : Cell) : Set ℕ :=
  {m | ∃ s ∈ seeds, ReachesIn rows cols obstacle s m x}

open Classical in
/-- Minimum number of 8-connected hops from the nearest seed to `x`, or `⊤`
when `x` is unreachable. -/
noncomputable def distSpec (rows cols : ℤ) (obstacle : Cell → Bool)
    (seeds : List Cell) (x : Cell) : ℕ∞ :=
  if _h : (distSet rows cols obstacle seeds x).Nonempty
  then ((sInf (distSet rows cols obstacle seeds x) : ℕ) : ℕ∞)
  else ⊤

/-!
## BFS verification apparatus

The invariant below drives the correctness proof relating `bfsAux` to
`distSpec`.
-/

/-- The finite set of in-bounds cells. -/
def region (rows cols : ℤ) : Finset Cell :=
  Finset.Icc (0 : ℤ) (rows - 1) ×ˢ Finset.Icc (0 : ℤ) (cols - 1)

/-- Distance of the front queue entry, `⊤` for an empty queue. -/
def headDistance (q : List (Cell × ℕ)) : ℕ∞ :=
  match q with
  | [] => ⊤
  | (_, d) :: _ => (d : ℕ∞)

/-- The classic multi-source BFS loop invariant: queue distances are sorted
and span at most two consecutive values, queue entries carry the true
distance of their (visited) cell, the field is correct on visited cells and
untouched elsewhere, seeds are visited, fully-expanded visited cells have
all their eligible neighbours visited, and every cell strictly closer than
the queue front is already visited. -/
structure BfsInv (rows cols : ℤ) (obstacle : Cell → Bool) (seeds : List Cell)
    (q : List (Cell × ℕ)) (v : Finset Cell) (f : Cell → ℕ∞) : Prop where
  sorted : (q.map Prod.snd).Sorted (· ≤ ·)
  span : ∀ e ∈ q, ∀ e2 ∈ q, e.2 ≤ e2.2 + 1
  sound : ∀ e ∈ q, e.1 ∈ v ∧ distSpec rows cols obstacle seeds e.1 = (e.2 : ℕ∞)
  visited_field : ∀ c ∈ v, f c = distSpec rows cols obstacle seeds c
  unvisited_field : ∀ c : Cell, c ∉ v → f c = ⊤
  seeds_visited : ∀ s ∈ seeds, s ∈ v
  closure : ∀ pc ∈ v, (∀ dd : ℕ, (pc, dd) ∉ q) →
    ∀ n ∈ getNeighbors rows cols pc.1 pc.2, obstacle n = false → n ∈ v
  complete_below : ∀ x : Cell,
    distSpec rows cols obstacle seeds x < headDistance q → x ∈ v

/-- Termination measure of the BFS loop: queue length plus the number of
in-bounds cells not yet visited. -/
def bfsMeasure (rows cols : ℤ) (q : List (Cell × ℕ)) (v : Finset Cell) : ℕ :=
  q.length + (region rows cols \ v).card

/-!
## Engine data model
-/

/-- `SimulationParams` of the source.  All fields are JavaScript numbers in
the source; they are modelled as exact rationals (`numAgents`, a loop bound,
as `ℕ`). -/
structure SimulationParams where
  gridSize : ℚ
  mapWidth : ℚ
  mapHeight : ℚ
  numAgents : ℕ
  staticWeight : ℚ
  dynamicWeight : ℚ
  randomness : ℚ
  decayRate : ℚ
  diffusionRate : ℚ

/-- Node categories, a closed union of string literals in the source. -/
inductive NodeType where
  | vendor
  | entryExit
  | bin
deriving DecidableEq

/-- A target node with identity, world position and category. -/
structure Node where
  id : String
  x : ℚ
  y : ℚ
  type : NodeType
deriving DecidableEq

/-- A mobile agent.  `distanceTraveled` accumulates Euclidean step lengths
(`Math.sqrt` results), hence is a real. -/
structure Agent where
  id : String
  x : ℚ
  y : ℚ
  targetNodeId : String
  path : List (ℚ × ℚ)
  distanceTraveled : ℝ

/-- The whole `SimulationEngine` state. -/
structure Engine where
  params : SimulationParams
  agents : List Agent
  staticField : Cell → ℕ∞
  dynamicField : Cell → ℚ
  obstacleGrid : List (List Bool)
  nodes : List Node
  gridRows : ℤ
  gridCols : ℤ
  stepCount : ℕ
  congestionMap : Cell → ℕ

/-- Row count `Math.ceil(mapHeight / gridSize)`. -/
def gridRowsOf (p : SimulationParams) : ℤ := ⌈p.mapHeight / p.gridSize⌉

/-- Column count `Math.ceil(mapWidth / gridSize)`. -/
def gridColsOf (p : SimulationParams) : ℤ := ⌈p.mapWidth / p.gridSize⌉

/-- `SimulationEngine.worldToGrid`: `(row, col) = (⌊y/s⌋, ⌊x/s⌋)`. -/
def worldToGrid (s : ℚ) (x y : ℚ) : Cell := (⌊y / s⌋, ⌊x / s⌋)

/-- `SimulationEngine.gridToWorld`: the world centre `(x, y)` of a cell. -/
def gridToWorld (s : ℚ) (c : Cell) : ℚ × ℚ :=
  (((c.2 : ℚ) + 1/2) * s, ((c.1 : ℚ) + 1/2) * s)

/-- JavaScript array read `grid[row][col]` on the obstacle grid.  In the
source every such read happens at a cell that already passed the bounds
check against `gridRows`/`gridCols`, so only a mismatched supplied grid is
delicate: an out-of-range COLUMN yields `undefined`, which the `!`
truthiness tests treat as `false` (walkable), but a missing ROW
(`grid[row]` itself `undefined`) would throw a `TypeError`.  The model
reads a missing row as walkable too, so theorems about engines built from
a supplied grid assume it has at least `gridRows` rows (see
`constructionCompletes`); a missing column is modelled faithfully. -/
def obstacleAt (grid : List (List Bool)) (c : Cell) : Bool :=
  if 0 ≤ c.1 ∧ 0 ≤ c.2 then
    (((grid.get? c.1.toNat).bind (fun row => row.get? c.2.toNat)).getD false)
  else false

/-- `initializeObstacleMap`: the default all-walkable rows × cols grid. -/
def defaultObstacleGrid (rows cols : ℤ) : List (List Bool) :=
  List.replicate rows.toNat (List.replicate cols.toNat false)

/-- The in-bounds cells of the node list, in node order — exactly the BFS
seeds of `computeStaticField`. -/
def seedsOf (s : ℚ) (rows cols : ℤ) (nodes : List Node) : List Cell :=
  (nodes.map (fun n => worldToGrid s n.x n.y)).filter (inBoundsB rows cols)

/-- JavaScript list indexing `l[i]` with an integer index: `undefined`
(modelled `none`) when out of range. -/
def listIdx {α : Type} (l : List α) (i : ℤ) : Option α :=
  if 0 ≤ i then l.get? i.toNat else none

/-- The loop body of `spawnAgents`: `i` is the running agent index,
the second argument counts the remaining iterations.  Each iteration
consumes two draws (entry choice, target choice); a missing entry or
target (`undefined`) skips the agent, as the source's truthiness test
does. -/
def spawnLoop (entry target : List Node) (rng : ℕ → ℚ) :
    ℕ → ℕ → ℕ → List Agent × ℕ
  | _, 0, k => ([], k)
  | i, remaining + 1, k =>
      let u := rng k
      let v := rng (k + 1)
      let rest := spawnLoop entry target rng (i + 1) remaining (k + 2)
      match listIdx entry ⌊u * (entry.length : ℚ)⌋,
            listIdx target ⌊v * (target.length : ℚ)⌋ with
      | some en, some tn =>
          ({ id := "agent-" ++ toString i, x := en.x, y := en.y,
             targetNodeId := tn.id, path := [], distanceTraveled := 0 } :: rest.1,
           rest.2)
      | _, _ => rest

/-- `SimulationEngine.spawnAgents`. -/
def spawnAgents (p : SimulationParams) (nodes : List Node) (rng : ℕ → ℚ)
    (k : ℕ) : List Agent × ℕ :=
  spawnLoop (nodes.filter (fun n => n.type = NodeType.entryExit))
    (nodes.filter (fun n => n.type = NodeType.entryExit ∨ n.type = NodeType.bin))
    rng 0 p.numAgents k

/-- The `SimulationEngine` constructor.  It contains no validation code:
parameters and the optional obstacle grid are stored as given.  The model
is total, whereas the source can still die with an incidental runtime
error — `Array(n)` in `initializeFields` throws a `RangeError` for a
negative or non-finite computed dimension, and the constructor's BFS
throws a `TypeError` if it reads a missing row of a too-short supplied
obstacle grid.  Those collapsed error paths are fenced off by the domain
predicate `constructionCompletes` below, and theorems quantifying over
constructor inputs are restricted to that domain. -/
def mkEngine (p : SimulationParams) (nodes : List Node)
    (obstacles : Option (List (List Bool))) (rng : ℕ → ℚ) (k : ℕ) :
    Engine × ℕ :=
  let rows := gridRowsOf p
  let cols := gridColsOf p
  let grid := match obstacles with
    | some g => g
    | none => defaultObstacleGrid rows cols
  let sp := spawnAgents p nodes rng k
  ({ params := p
     agents := sp.1
     staticField := computeStaticFieldAux rows cols (obstacleAt grid)
       (seedsOf p.gridSize rows cols nodes)
     dynamicField := fun _ => 0
     obstacleGrid := grid
     nodes := nodes
     gridRows := rows
     gridCols := cols
     stepCount := 0
     congestionMap := fun _ => 0 }, sp.2)

/-- The domain on which the total model `mkEngine` is faithful to the
source constructor, i.e. on which the real constructor completes without an
incidental runtime error: `Array(n)` in `initializeFields` requires an
integer `0 ≤ n < 2^32` (a negative `mapHeight` gives a negative count,
`gridSize = 0` gives `NaN`/`Infinity`, and either makes `Array` throw a
`RangeError`), and a supplied obstacle grid must have at least `gridRows`
rows, since reading `obstacleMap[row][col]` at a missing row throws a
`TypeError` during the constructor's BFS (a missing column merely reads
`undefined`, i.e. walkable).  None of these failure paths is the
validation the specification describes. -/
def constructionCompletes (p : SimulationParams)
    (obstacles : Option (List (List Bool))) : Bool :=
  decide (p.gridSize ≠ 0) &&
  decide (0 ≤ gridRowsOf p) && decide (gridRowsOf p < 2 ^ 32) &&
  decide (0 ≤ gridColsOf p) && decide (gridColsOf p < 2 ^ 32) &&
  (match obstacles with
   | none => true
   | some g => decide ((gridRowsOf p).toNat ≤ g.length))

/-!
## Movement selection
-/

/-- The unnormalised transition weight of `calculateMoveProbability`:
`exp(-w_s·S + w_d·D + ε·(u - 0.5))`.  When `S = ∞` (unreachable cell) the
JavaScript computation gives `exp(-Infinity) = 0` for `w_s > 0`; the model
returns 0 for the `⊤` case. -/
noncomputable def candWeight (p : SimulationParams) (S : ℕ∞) (Dv : ℚ) (u : ℚ) : ℝ :=
  if S = ⊤ then 0
  else Real.exp (-(p.staticWeight : ℝ) * (S.toNat : ℝ) + (p.dynamicWeight : ℝ) * (Dv : ℝ)
    + (p.randomness : ℝ) * ((u : ℝ) - 1/2))

/-- The candidate-collection loop of `selectNextCell`: walk the neighbour
list, skip obstacle cells, and give each surviving cell a weight computed
with one fresh draw. -/
noncomputable def collectCandidates (p : SimulationParams) (static : Cell → ℕ∞)
    (dyn : Cell → ℚ) (obst : Cell → Bool) (rng : ℕ → ℚ) :
    List Cell → ℕ → List (Cell × ℝ) × ℕ
  | [], k => ([], k)
  | nb :: rest, k =>
      if obst nb then collectCandidates p static dyn obst rng rest k
      else
        let w := candWeight p (static nb) (dyn nb) (rng k)
        let r := collectCandidates p static dyn obst rng rest (k + 1)
        ((nb, w) :: r.1, r.2)

/-- The cumulative-selection loop of `selectNextCell`: return the first
candidate whose running cumulative weight reaches `rand`; if the loop
finishes, fall back to the last candidate (`probabilities[...] || null`). -/
noncomputable def cdfPick (rand : ℝ) : ℝ → List (Cell × ℝ) → Option Cell
  | _, [] => none
  | cum, (c, p) :: rest =>
      if rand ≤ cum + p then some c
      else
        match rest with
        | [] => some c
        | _ :: _ => cdfPick rand (cum + p) rest

/-- `SimulationEngine.selectNextCell`.  Returns the chosen cell (or `none`
when the total weight is 0, which includes the boxed-in case) and the new
rng cursor.  The selection draw is consumed only when the total is
non-zero, as in the source. -/
noncomputable def selectNextCell (p : SimulationParams) (static : Cell → ℕ∞)
    (dyn : Cell → ℚ) (obst : Cell → Bool) (rows cols : ℤ) (rng : ℕ → ℚ)
    (row col : ℤ) (k : ℕ) : Option Cell × ℕ :=
  let cw := collectCandidates p static dyn obst rng (getNeighbors rows cols row col) k
  let total := (cw.1.map Prod.snd).sum
  if total = 0 then (none, cw.2)
  else (cdfPick ((rng cw.2 : ℝ) * total) 0 cw.1, cw.2 + 1)

/-!
## One simulation step
-/

/-- The two mutable per-step grids threaded through the agent loop. -/
structure FieldPair where
  dyn : Cell → ℚ
  cong : Cell → ℕ

/-- The trail deposit of `step`: increment `dynamicField` and
`congestionMap` at `c` when `c` is in bounds. -/
def depositAt (rows cols : ℤ) (c : Cell) (f : FieldPair) : FieldPair :=
  if inBoundsB rows cols c then
    { dyn := fun x => if x = c then f.dyn x + 1 else f.dyn x
      cong := fun x => if x = c then f.cong x + 1 else f.cong x }
  else f

/-- The movement-and-retarget part of the per-agent body of `step` (the
part after the deposit): select a next cell, move there accumulating path
and distance, then possibly re-assign the target.  A selection draw index
is threaded; when the retarget fires with a non-empty alternative list, one
more draw is consumed.  (With draws in `[0,1)` the chosen index is always
in range; an out-of-range draw keeps the current target where JavaScript
would crash.) -/
noncomputable def agentMoveRetarget (e : Engine) (dyn : Cell → ℚ)
    (rng : ℕ → ℚ) (a : Agent) (k : ℕ) : Agent × ℕ :=
  let rc := worldToGrid e.params.gridSize a.x a.y
  let sel := selectNextCell e.params e.staticField dyn (obstacleAt e.obstacleGrid)
    e.gridRows e.gridCols rng rc.1 rc.2 k
  let a1 := match sel.1 with
    | some nc =>
        let w := gridToWorld e.params.gridSize nc
        let dx := w.1 - a.x
        let dy := w.2 - a.y
        { a with x := w.1, y := w.2
                 distanceTraveled := a.distanceTraveled + Real.sqrt ((dx : ℝ)^2 + (dy : ℝ)^2)
                 path := a.path ++ [(w.1, w.2)] }
    | none => a
  match e.nodes.find? (fun n => n.id = a.targetNodeId) with
  | some tn =>
      if Real.sqrt (((a1.x - tn.x : ℚ) : ℝ)^2 + ((a1.y - tn.y : ℚ) : ℝ)^2)
          < (e.params.gridSize : ℝ) * 2 then
        let newTargets := e.nodes.filter (fun n =>
          (n.type = NodeType.entryExit ∨ n.type = NodeType.bin) ∧ n.id ≠ a.targetNodeId)
        if 0 < newTargets.length then
          match listIdx newTargets ⌊rng sel.2 * (newTargets.length : ℚ)⌋ with
          | some nt => ({ a1 with targetNodeId := nt.id }, sel.2 + 1)
          | none => (a1, sel.2 + 1)
        else (a1, sel.2)
      else (a1, sel.2)
  | none => (a1, sel.2)

/-- The whole per-agent body of `step`: deposit at the agent's current
cell, then move and retarget. -/
noncomputable def agentStep (e : Engine) (rng : ℕ → ℚ) (f : FieldPair)
    (a : Agent) (k : ℕ) : Agent × FieldPair × ℕ :=
  let rc := worldToGrid e.params.gridSize a.x a.y
  let f1 := depositAt e.gridRows e.gridCols rc f
  let mv := agentMoveRetarget e f1.dyn rng a k
  (mv.1, f1, mv.2)

/-- The `agents.forEach` loop of `step`, front to back. -/
noncomputable def processAgents (e : Engine) (rng : ℕ → ℚ) :
    FieldPair → List Agent → ℕ → List Agent × FieldPair × ℕ
  | f, [], k => ([], f, k)
  | f, a :: as, k =>
      let st := agentStep e rng f a k
      let rest := processAgents e rng st.2.1 as st.2.2
      (st.1 :: rest.1, rest.2.1, rest.2.2)

/-- `SimulationEngine.updateDynamicField`: exponential decay over the grid,
then (only when `diffusionRate > 0`) neighbourhood diffusion into a fresh
zero buffer. -/
def updateDynamicField (p : SimulationParams) (rows cols : ℤ)
    (D : Cell → ℚ) : Cell → ℚ :=
  let decayed := fun c => if inBoundsB rows cols c then D c * p.decayRate else D c
  if 0 < p.diffusionRate then
    fun c =>
      if inBoundsB rows cols c then
        (decayed c +
          ((getNeighbors rows cols c.1 c.2).map (fun n => decayed n * p.diffusionRate)).sum)
        / (1 + p.diffusionRate * ((getNeighbors rows cols c.1 c.2).length : ℚ))
      else 0
  else decayed

/-- `SimulationEngine.step`: bump the step counter, run the per-agent loop
(deposit, move, retarget for each agent in order), then decay/diffuse the
dynamic field. -/
noncomputable def stepEngine (e : Engine) (rng : ℕ → ℚ) (k : ℕ) : Engine × ℕ :=
  let pr := processAgents e rng ⟨e.dynamicField, e.congestionMap⟩ e.agents k
  ({ e with stepCount := e.stepCount + 1
            agents := pr.1
            dynamicField := updateDynamicField e.params e.gridRows e.gridCols pr.2.1.dyn
            congestionMap := pr.2.1.cong }, pr.2.2)

/-- `n` consecutive `step()` calls, threading the rng cursor. -/
noncomputable def iterN (rng : ℕ → ℚ) : ℕ → Engine × ℕ → Engine × ℕ
  | 0, st => st
  | n + 1, st =>
      let st2 := iterN rng n st
      stepEngine st2.1 rng st2.2

/-- `SimulationEngine.reset`: zero the step counter, drop the agents,
re-create the fields (the static field is recomputed from the unchanged
nodes and obstacles), and re-spawn the agent pool. -/
def resetEngine (e : Engine) (rng : ℕ → ℚ) (k : ℕ) : Engine × ℕ :=
  let sp := spawnAgents e.params e.nodes rng k
  ({ e with stepCount := 0
            agents := sp.1
            dynamicField := fun _ => 0
            congestionMap := fun _ => 0
            staticField := computeStaticFieldAux e.gridRows e.gridCols
              (obstacleAt e.obstacleGrid)
              (seedsOf e.params.gridSize e.gridRows e.gridCols e.nodes) }, sp.2)

/-!
## Statistics
-/

/-- The allocated grid cells, row-major — what `congestionMap.flat()`
ranges over. -/
def regionCellList (rows cols : ℤ) : List Cell :=
  (List.range rows.toNat).flatMap
    (fun r => (List.range cols.toNat).map (fun c => ((r : ℤ), (c : ℤ))))

/-- The record returned by `getStatistics`.  `avgDistanceTraveled` is
`none` exactly when JavaScript computes the NaN quotient `0/0` (no agents);
`maxCongestion` is `none` when `Math.max` of an empty spread would give
`-Infinity`; `avgCongestion` is `none` for the NaN case `rows*cols = 0`. -/
structure SimulationStats where
  stepCount : ℕ
  totalAgents : ℕ
  avgDistanceTraveled : Option ℝ
  maxCongestion : Option ℕ
  avgCongestion : Option ℚ

/-- `SimulationEngine.getStatistics`. -/
noncomputable def getStatistics (e : Engine) : SimulationStats :=
  { stepCount := e.stepCount
    totalAgents := e.agents.length
    avgDistanceTraveled :=
      if e.agents.length = 0 then none
      else some ((e.agents.map Agent.distanceTraveled).sum / (e.agents.length : ℝ))
    maxCongestion := ((regionCellList e.gridRows e.gridCols).map e.congestionMap).max?
    avgCongestion :=
      if e.gridRows * e.gridCols = 0 then none
      else some ((((regionCellList e.gridRows e.gridCols).map e.congestionMap).sum : ℚ)
        / ((e.gridRows * e.gridCols : ℤ) : ℚ)) }

/-!
## Specification-side models

These definitions are modelled from the specification's words, to be
compared against the code-side definitions above.
-/

/-- Modelled from the spec: the §6/§7 construction-time validation
(non-positive grid dimensions, obstacle-grid dimension mismatch,
out-of-range decay/diffusion parameters; non-finiteness cannot arise in the
exact-rational model). -/
def validConstruction (p : SimulationParams)
    (obstacles : Option (List (List Bool))) : Bool :=
  decide (0 < gridRowsOf p) && decide (0 < gridColsOf p) &&
  decide (0 ≤ p.decayRate) && decide (p.decayRate ≤ 1) &&
  decide (0 ≤ p.diffusionRate) &&
  (match obstacles with
   | none => true
   | some g =>
       decide (g.length = (gridRowsOf p).toNat) &&
       g.all (fun row => decide (row.length = (gridColsOf p).toNat)))

/-- Modelled from the spec (§4.3): the candidate cells of `(row, col)` are
the Moore neighbours that are in bounds and not obstacles. -/
def specCandidates (obst : Cell → Bool) (rows cols : ℤ) (row col : ℤ) : List Cell :=
  (mooreOffsets.map (fun d => (row + d.1, col + d.2))).filter
    (fun n => inBoundsB rows cols n && !obst n)

/-- Modelled from the spec (§4.3): each candidate receives a weight
computed from one independent uniform draw, draws indexed consecutively. -/
noncomputable def drawWeights (p : SimulationParams) (static : Cell → ℕ∞)
    (dyn : Cell → ℚ) (rng : ℕ → ℚ) : ℕ → List Cell → List (Cell × ℝ)
  | _, [] => []
  | k, n :: rest =>
      (n, candWeight p (static n) (dyn n) (rng k)) :: drawWeights p static dyn rng (k + 1) rest

/-- Modelled from the spec (§4.3): weighted selection by
cumulative-distribution inversion over the normalised weights.  An empty
candidate set yields no move. -/
noncomputable def specSelectNextCell (p : SimulationParams) (static : Cell → ℕ∞)
    (dyn : Cell → ℚ) (obst : Cell → Bool) (rows cols : ℤ) (rng : ℕ → ℚ)
    (row col : ℤ) (k : ℕ) : Option Cell × ℕ :=
  let cands := specCandidates obst rows cols row col
  match cands with
  | [] => (none, k)
  | _ :: _ =>
      let ws := drawWeights p static dyn rng k cands
      let total := (ws.map Prod.snd).sum
      ((cdfPick (rng (k + cands.length) : ℝ) 0 (ws.map (fun cw => (cw.1, cw.2 / total)))),
       k + cands.length + 1)

/-- Modelled from the spec (§4.5 step 1): every agent deposits at its
pre-move cell before any agent moves. -/
def depositPhase (rows cols : ℤ) (s : ℚ) (agents : List Agent)
    (f : FieldPair) : FieldPair :=
  agents.foldl (fun acc a => depositAt rows cols (worldToGrid s a.x a.y) acc) f

/-- Modelled from the spec (§4.5 step 2): after all deposits, each agent
moves and retargets in order, every selection reading the single
post-deposit dynamic field. -/
noncomputable def movePhase (e : Engine) (dyn : Cell → ℚ) (rng : ℕ → ℚ) :
    List Agent → ℕ → List Agent × ℕ
  | [], k => ([], k)
  | a :: as, k =>
      let mv := agentMoveRetarget e dyn rng a k
      let rest := movePhase e dyn rng as mv.2
      (mv.1 :: rest.1, rest.2)

/-- Modelled from the spec (§4.5): a step whose deposit phase completes
before any movement. -/
noncomputable def twoPhaseStep (e : Engine) (rng : ℕ → ℚ) (k : ℕ) : Engine × ℕ :=
  let f1 := depositPhase e.gridRows e.gridCols e.params.gridSize e.agents
    ⟨e.dynamicField, e.congestionMap⟩
  let mv := movePhase e f1.dyn rng e.agents k
  ({ e with stepCount := e.stepCount + 1
            agents := mv.1
            dynamicField := updateDynamicField e.params e.gridRows e.gridCols f1.dyn
            congestionMap := f1.cong }, mv.2)

/-!
## Concrete instances used by counterexamples and witnesses
-/

/-- A tiny all-walkable 1x2 static field used by selection witnesses. -/
def tinyStatic : Cell → ℕ∞ :=
  computeStaticFieldAux 1 2 (fun _ => false) [((0 : ℤ), (0 : ℤ))]

/-- A 1×4 corridor engine with two agents, used to exhibit the
deposit/move interleaving: agent 1 sits on cell (0,1), agent 2 on cell
(0,2); `staticWeight = 0`, `dynamicWeight = 1`, `randomness = 0`. -/
def c2params : SimulationParams :=
  { gridSize := 10, mapWidth := 40, mapHeight := 10, numAgents := 2
    staticWeight := 0, dynamicWeight := 1, randomness := 0
    decayRate := 1, diffusionRate := 0 }

def c2node : Node := { id := "n0", x := 5, y := 5, type := NodeType.entryExit }

def c2agentA : Agent :=
  { id := "agent-0", x := 15, y := 5, targetNodeId := "missing"
    path := [], distanceTraveled := 0 }

def c2agentB : Agent :=
  { id := "agent-1", x := 25, y := 5, targetNodeId := "missing"
    path := [], distanceTraveled := 0 }

/-- The static field of the 1×4 corridor with its node on cell (0,0)
(the node at world (5,5) maps to cell (0,0); the all-walkable obstacle
grid reads back as the constantly-false predicate). -/
def c2static : Cell → ℕ∞ :=
  computeStaticFieldAux 1 4 (fun _ => false) [((0 : ℤ), (0 : ℤ))]

def c2engine : Engine :=
  { params := c2params
    agents := [c2agentA, c2agentB]
    staticField := c2static
    dynamicField := fun _ => 0
    obstacleGrid := defaultObstacleGrid 1 4
    nodes := [c2node]
    gridRows := 1
    gridCols := 4
    stepCount := 0
    congestionMap := fun _ => 0 }

/-- The draw stream for the interleaving counterexample: agent 1's
selection draw (index 2) is 2/5, everything else 0. -/
def c2rng : ℕ → ℚ := fun i => if i = 2 then 2/5 else 0

/-- Scenario B of the spec: 10×10 grid (cell size 20, map 200×200), one
entry-exit node at cell (0,0), one bin node at cell (9,9), no obstacles,
one agent, `staticWeight = 1`, `dynamicWeight = 0`, `randomness = 0`,
`decayRate = 1`, `diffusionRate = 0`. -/
def sbParams : SimulationParams :=
  { gridSize := 20, mapWidth := 200, mapHeight := 200, numAgents := 1
    staticWeight := 1, dynamicWeight := 0, randomness := 0
    decayRate := 1, diffusionRate := 0 }

def sbNodes : List Node :=
  [{ id := "n0", x := 10, y := 10, type := NodeType.entryExit },
   { id := "n1", x := 190, y := 190, type := NodeType.bin }]

/-- One concrete outcome of the random draws for Scenario B: the spawn
target draw (index 1) is 1/2, making the bin the initial target; every
other draw is 0. -/
def sbRng : ℕ → ℚ := fun i => if i = 1 then 1/2 else 0

/-- The Scenario B engine and cursor after construction. -/
noncomputable def sbStart : Engine × ℕ := mkEngine sbParams sbNodes none sbRng 0

/-- The Scenario B state after `n` advance calls under `sbRng`. -/
noncomputable def sbRun (n : ℕ) : Engine × ℕ := iterN sbRng n sbStart

/-- Some agent comes within the target-reached radius (`2 · cellSize`) of
the bin node's position within the first `n` advance calls — the engine's
own notion of reaching the bin. -/
def sbReachedBinWithin (n : ℕ) : Prop :=
  ∃ m, m ≤ n ∧ ∃ a ∈ (sbRun m).1.agents,
    Real.sqrt (((a.x - 190 : ℚ) : ℝ)^2 + ((a.y - 190 : ℚ) : ℝ)^2)
      < (sbParams.gridSize : ℝ) * 2

/-- The oscillating world position the Scenario B agent actually takes
under the all-zeros draw stream: the centre of cell (0,0) on even steps,
the centre of cell (0,1) on odd steps. -/
def oscPos (n : ℕ) : ℚ × ℚ := if n % 2 = 0 then (10, 10) else (30, 10)

/-- The Scenario B agent as spawned (entry node position, bin target). -/
def sbAgent : Agent :=
  { id := "agent-0", x := 10, y := 10, targetNodeId := "n1"
    path := [], distanceTraveled := 0 }

/-- The Scenario B static field with its seeds already resolved to the
cells (0,0) and (9,9). -/
def sbStatic : Cell → ℕ∞ :=
  computeStaticFieldAux 10 10 (obstacleAt (defaultObstacleGrid 10 10))
    [((0 : ℤ), (0 : ℤ)), ((9 : ℤ), (9 : ℤ))]

/-- The general shape of the Scenario B engine state along the run: the
single agent sits at the oscillation position of step `n` with the bin
target, and the fields and history are arbitrary. -/
def sbShape (n : ℕ) (D : Cell → ℚ) (C : Cell → ℕ) (path : List (ℚ × ℚ))
    (dist : ℝ) : Engine :=
  { params := sbParams
    agents := [{ id := "agent-0", x := (oscPos n).1, y := (oscPos n).2,
                 targetNodeId := "n1", path := path, distanceTraveled := dist }]
    staticField := sbStatic
    dynamicField := D
    obstacleGrid := defaultObstacleGrid 10 10
    nodes := sbNodes
    gridRows := 10
    gridCols := 10
    stepCount := n
    congestionMap := C }

/-- The Scenario B engine right after construction, with the grid geometry
and seeds evaluated. -/
def sbEngine0 : Engine :=
  { params := sbParams
    agents := [sbAgent]
    staticField := sbStatic
    dynamicField := fun _ => 0
    obstacleGrid := defaultObstacleGrid 10 10
    nodes := sbNodes
    gridRows := 10
    gridCols := 10
    stepCount := 0
    congestionMap := fun _ => 0 }

/-- Parameters for the constructor-validation counterexample: a 1×2 grid
with otherwise valid parameters. -/
def c4params : SimulationParams :=
  { gridSize := 10, mapWidth := 20, mapHeight := 10, numAgents := 0
    staticWeight := 0, dynamicWeight := 0, randomness := 0
    decayRate := 1/2, diffusionRate := 0 }

/-- An obstacle grid of the wrong shape (1×1 instead of 1×2). -/
def c4grid : List (List Bool) := [[true]]

/-- The all-zeros draw stream. -/
def rngZero : ℕ → ℚ := fun _ => 0

/-!
## Basic lemmas about the grid geometry
-/

theorem inBoundsB_iff (rows cols : ℤ) (c : Cell) :
    inBoundsB rows cols c = true ↔
      0 ≤ c.1 ∧ c.1 < rows ∧ 0 ≤ c.2 ∧ c.2 < cols := by
  simp [inBoundsB, and_assoc]

theorem mem_getNeighbors {rows cols row col : ℤ} {c : Cell} :
    c ∈ getNeighbors rows cols row col ↔
      (∃ d ∈ mooreOffsets, c = (row + d.1, col + d.2)) ∧
        (0 ≤ c.1 ∧ c.1 < rows ∧ 0 ≤ c.2 ∧ c.2 < cols) := by
  unfold getNeighbors
  rw [List.mem_filter, List.mem_map, inBoundsB_iff]
  constructor
  · rintro ⟨⟨d, hd, rfl⟩, hb⟩
    exact ⟨⟨d, hd, rfl⟩, hb⟩
  · rintro ⟨⟨d, hd, rfl⟩, hb⟩
    exact ⟨⟨d, hd, rfl⟩, hb⟩

theorem getNeighbors_nodup (rows cols row col : ℤ) :
    (getNeighbors rows cols row col).Nodup := by
  apply List.Nodup.filter
  apply List.Nodup.map
  · intro a b hab
    have h1 : row + a.1 = row + b.1 := congrArg Prod.fst hab
    have h2 : col + a.2 = col + b.2 := congrArg Prod.snd hab
    exact Prod.ext (by omega) (by omega)
  · decide

theorem getNeighbors_inBounds {rows cols row col : ℤ} {c : Cell}
    (h : c ∈ getNeighbors rows cols row col) :
    0 ≤ c.1 ∧ c.1 < rows ∧ 0 ≤ c.2 ∧ c.2 < cols :=
  (mem_getNeighbors.mp h).2

/-!
## Basic lemmas about the specification distance
-/

theorem distSpec_eq_top {rows cols : ℤ} {obstacle : Cell → Bool}
    {seeds : List Cell} {x : Cell}
    (h : ¬ (distSet rows cols obstacle seeds x).Nonempty) :
    distSpec rows cols obstacle seeds x = ⊤ := by
  simp [distSpec, h]

theorem distSpec_le {rows cols : ℤ} {obstacle : Cell → Bool}
    {seeds : List Cell} {x : Cell} {m : ℕ}
    (h : m ∈ distSet rows cols obstacle seeds x) :
    distSpec rows cols obstacle seeds x ≤ (m : ℕ∞) := by
  have hne : (distSet rows cols obstacle seeds x).Nonempty := ⟨m, h⟩
  simp only [distSpec, dif_pos hne]
  exact_mod_cast Nat.cast_le.mpr (Nat.sInf_le h)

theorem distSpec_mem {rows cols : ℤ} {obstacle : Cell → Bool}
    {seeds : List Cell} {x : Cell} {m : ℕ}
    (h : distSpec rows cols obstacle seeds x = (m : ℕ∞)) :
    m ∈ distSet rows cols obstacle seeds x := by
  by_cases hne : (distSet rows cols obstacle seeds x).Nonempty
  · simp only [distSpec, dif_pos hne] at h
    have hm : sInf (distSet rows cols obstacle seeds x) = m := by exact_mod_cast h
    simpa [hm] using Nat.sInf_mem hne
  · simp [distSpec, hne] at h

theorem distSpec_ne_top {rows cols : ℤ} {obstacle : Cell → Bool}
    {seeds : List Cell} {x : Cell}
    (h : distSpec rows cols obstacle seeds x ≠ ⊤) :
    ∃ m : ℕ, distSpec rows cols obstacle seeds x = (m : ℕ∞) := by
  cases hv : distSpec rows cols obstacle seeds x with
  | top => exact absurd hv h
  | coe m => exact ⟨m, rfl⟩

theorem distSpec_seed {rows cols : ℤ} {obstacle : Cell → Bool}
    {seeds : List Cell} {s : Cell} (h : s ∈ seeds) :
    distSpec rows cols obstacle seeds s = 0 := by
  have h0 : 0 ∈ distSet rows cols obstacle seeds s :=
    ⟨s, h, ReachesIn.refl s⟩
  have hle := distSpec_le h0
  simpa using le_antisymm (by simpa using hle) (zero_le _)

/-!
## BFS correctness: helper lemmas
-/

theorem mem_region {rows cols : ℤ} {c : Cell} :
    c ∈ region rows cols ↔ 0 ≤ c.1 ∧ c.1 < rows ∧ 0 ≤ c.2 ∧ c.2 < cols := by
  simp only [region, Finset.mem_product, Finset.mem_Icc]
  omega

theorem region_card (rows cols : ℤ) :
    (region rows cols).card = rows.toNat * cols.toNat := by
  have h1 : rows - 1 + 1 - 0 = rows := by omega
  have h2 : cols - 1 + 1 - 0 = cols := by omega
  simp [region, Finset.card_product, Int.card_Icc, h1, h2]

theorem reachesIn_zero_inv {rows cols : ℤ} {obstacle : Cell → Bool} {s x : Cell}
    (h : ReachesIn rows cols obstacle s 0 x) : s = x := by
  cases h
  rfl

theorem reachesIn_succ_inv {rows cols : ℤ} {obstacle : Cell → Bool} {s x : Cell}
    {n : ℕ} (h : ReachesIn rows cols obstacle s (n + 1) x) :
    ∃ p : Cell, ReachesIn rows cols obstacle s n p ∧
      x ∈ getNeighbors rows cols p.1 p.2 ∧ obstacle x = false := by
  cases h with
  | step hr hn ho => exact ⟨_, hr, hn, ho⟩

theorem distSpec_zero_mem {rows cols : ℤ} {obstacle : Cell → Bool}
    {seeds : List Cell} {x : Cell}
    (h : distSpec rows cols obstacle seeds x = ((0 : ℕ) : ℕ∞)) : x ∈ seeds := by
  obtain ⟨s, hs, hr⟩ := distSpec_mem h
  rwa [reachesIn_zero_inv hr] at hs

theorem distSpec_pred {rows cols : ℤ} {obstacle : Cell → Bool}
    {seeds : List Cell} {x : Cell} {m : ℕ}
    (h : distSpec rows cols obstacle seeds x = ((m + 1 : ℕ) : ℕ∞)) :
    ∃ p : Cell, ∃ mp : ℕ, mp ≤ m ∧
      distSpec rows cols obstacle seeds p = (mp : ℕ∞) ∧
      x ∈ getNeighbors rows cols p.1 p.2 ∧ obstacle x = false := by
  obtain ⟨s, hs, hr⟩ := distSpec_mem h
  obtain ⟨p, hrp, hnb, hob⟩ := reachesIn_succ_inv hr
  have hle : distSpec rows cols obstacle seeds p ≤ (m : ℕ∞) :=
    distSpec_le ⟨s, hs, hrp⟩
  have hne : distSpec rows cols obstacle seeds p ≠ ⊤ :=
    (lt_of_le_of_lt hle (ENat.coe_lt_top m)).ne
  obtain ⟨mp, hmp⟩ := distSpec_ne_top hne
  refine ⟨p, mp, ?_, hmp, hnb, hob⟩
  rw [hmp] at hle
  exact_mod_cast hle

theorem distSpec_step_le {rows cols : ℤ} {obstacle : Cell → Bool}
    {seeds : List Cell} {b n : Cell} {d : ℕ}
    (hb : distSpec rows cols obstacle seeds b = (d : ℕ∞))
    (hn : n ∈ getNeighbors rows cols b.1 b.2) (ho : obstacle n = false) :
    distSpec rows cols obstacle seeds n ≤ ((d + 1 : ℕ) : ℕ∞) := by
  obtain ⟨s, hs, hr⟩ := distSpec_mem hb
  exact distSpec_le ⟨s, hs, ReachesIn.step hr hn ho⟩

theorem sorted_head_le {c : Cell} {d : ℕ} {rest : List (Cell × ℕ)}
    (hs : (((c, d) :: rest).map Prod.snd).Sorted (· ≤ ·)) :
    ∀ e ∈ rest, d ≤ e.2 := by
  intro e he
  have h : (∀ b : ℕ, ∀ x x2 : ℤ, ((x, x2), b) ∈ rest → d ≤ b) ∧
      List.Sorted (fun x1 x2 => x1 ≤ x2) (List.map Prod.snd rest) := by
    simpa using hs
  exact h.1 e.2 e.1.1 e.1.2 (by simpa using he)

/-- Any cell whose true distance is at most the front distance of a
non-empty queue is already visited.  (Strong induction along shortest
walks, using `closure` once the predecessor has left the queue.) -/
theorem bfs_below_head {rows cols : ℤ} {obstacle : Cell → Bool}
    {seeds : List Cell} {c : Cell} {d : ℕ} {rest : List (Cell × ℕ)}
    {v : Finset Cell} {f : Cell → ℕ∞}
    (inv : BfsInv rows cols obstacle seeds ((c, d) :: rest) v f) :
    ∀ m : ℕ, m ≤ d → ∀ x : Cell,
      distSpec rows cols obstacle seeds x = (m : ℕ∞) → x ∈ v := by
  intro m
  induction m using Nat.strong_induction_on with
  | _ m ih =>
    intro hm x hx
    match m, hm, hx with
    | 0, hm, hx =>
        exact inv.seeds_visited x (distSpec_zero_mem hx)
    | m + 1, hm, hx =>
        obtain ⟨p, mp, hmple, hp, hnb, hob⟩ := distSpec_pred hx
        have hpv : p ∈ v := ih mp (by omega) (by omega) p hp
        have hpq : ∀ dd : ℕ, (p, dd) ∉ ((c, d) :: rest) := by
          intro dd hdd
          have hdm : (dd : ℕ∞) = (mp : ℕ∞) := (inv.sound (p, dd) hdd).2.symm.trans hp
          have hdm2 : dd = mp := by exact_mod_cast hdm
          rcases List.mem_cons.mp hdd with hh | hh
          · have : dd = d := congrArg Prod.snd hh
            omega
          · have := sorted_head_le inv.sorted (p, dd) hh
            simp only at this
            omega
        exact inv.closure p hpv hpq x hnb hob

/-- Newly discovered neighbours of the popped front cell have true
distance exactly one more than the front distance. -/
theorem bfs_ns_dist {rows cols : ℤ} {obstacle : Cell → Bool}
    {seeds : List Cell} {c : Cell} {d : ℕ} {rest : List (Cell × ℕ)}
    {v : Finset Cell} {f : Cell → ℕ∞}
    (inv : BfsInv rows cols obstacle seeds ((c, d) :: rest) v f)
    {n : Cell} (hnb : n ∈ getNeighbors rows cols c.1 c.2) (hnv : n ∉ v)
    (hob : obstacle n = false) :
    distSpec rows cols obstacle seeds n = ((d + 1 : ℕ) : ℕ∞) := by
  have hc : distSpec rows cols obstacle seeds c = (d : ℕ∞) :=
    (inv.sound (c, d) (List.mem_cons_self _ _)).2
  have hub := distSpec_step_le hc hnb hob
  have hne : distSpec rows cols obstacle seeds n ≠ ⊤ :=
    (lt_of_le_of_lt hub (ENat.coe_lt_top (d + 1))).ne
  obtain ⟨m, hm⟩ := distSpec_ne_top hne
  have hmub : m ≤ d + 1 := by
    rw [hm] at hub
    exact_mod_cast hub
  have hmlb : ¬ m ≤ d := by
    intro hmd
    exact hnv (bfs_below_head inv m hmd n hm)
  have : m = d + 1 := by omega
  rw [hm, this]

/-- When the queue holds a single entry whose eligible neighbours are all
visited, every cell at finite distance is visited. -/
theorem bfs_last_visits_all {rows cols : ℤ} {obstacle : Cell → Bool}
    {seeds : List Cell} {c : Cell} {d : ℕ} {v : Finset Cell} {f : Cell → ℕ∞}
    (inv : BfsInv rows cols obstacle seeds [(c, d)] v f)
    (hns : ∀ n ∈ getNeighbors rows cols c.1 c.2, obstacle n = false → n ∈ v) :
    ∀ (m : ℕ) (x : Cell),
      distSpec rows cols obstacle seeds x = (m : ℕ∞) → x ∈ v := by
  intro m
  induction m using Nat.strong_induction_on with
  | _ m ih =>
    intro x hx
    by_cases hmd : m ≤ d
    · exact bfs_below_head inv m hmd x hx
    · match m, hmd, hx with
      | 0, hmd, hx => exact absurd (Nat.zero_le d) hmd
      | m + 1, hmd, hx =>
        obtain ⟨p, mp, hmple, hp, hnb, hob⟩ := distSpec_pred hx
        have hpv : p ∈ v := ih mp (by omega) p hp
        by_cases hpc : p = c
        · subst hpc
          exact hns x hnb hob
        · have hpq : ∀ dd : ℕ, (p, dd) ∉ [(c, d)] := by
            intro dd hdd
            simp only [List.mem_singleton, Prod.mk.injEq] at hdd
            exact hpc hdd.1
          exact inv.closure p hpv hpq x hnb hob

/-- With an empty queue, the field agrees with the true distance
everywhere. -/
theorem bfs_final {rows cols : ℤ} {obstacle : Cell → Bool} {seeds : List Cell}
    {v : Finset Cell} {f : Cell → ℕ∞}
    (inv : BfsInv rows cols obstacle seeds [] v f) (x : Cell) :
    f x = distSpec rows cols obstacle seeds x := by
  by_cases hx : x ∈ v
  · exact inv.visited_field x hx
  · rw [inv.unvisited_field x hx]
    cases hd : distSpec rows cols obstacle seeds x with
    | top => rfl
    | coe m =>
        refine absurd (inv.complete_below x ?_) hx
        rw [hd]
        exact ENat.coe_lt_top m

theorem enat_lt_coe {a : ℕ∞} {k : ℕ} (h : a < (k : ℕ∞)) :
    ∃ m : ℕ, a = (m : ℕ∞) ∧ m < k := by
  cases a with
  | top => exact absurd h (by simp)
  | coe m => exact ⟨m, rfl, by exact_mod_cast h⟩

theorem sorted_const_map (d1 : ℕ) (l : List Cell) :
    (l.map (fun _ : Cell => d1)).Sorted (· ≤ ·) := by
  induction l with
  | nil => simp
  | cons a l ih =>
      rw [List.map_cons, List.sorted_cons]
      refine ⟨?_, ih⟩
      intro b hb
      obtain ⟨x, hx, rfl⟩ := List.mem_map.mp hb
      exact le_rfl

/-- Invariant preservation across the processing of one queue entry. -/
theorem bfsInv_step {rows cols : ℤ} {obstacle : Cell → Bool} {seeds : List Cell}
    {c : Cell} {d : ℕ} {rest : List (Cell × ℕ)} {v : Finset Cell} {f : Cell → ℕ∞}
    (inv : BfsInv rows cols obstacle seeds ((c, d) :: rest) v f) :
    BfsInv rows cols obstacle seeds
      (rest ++ ((getNeighbors rows cols c.1 c.2).filter
        (fun n => !decide (n ∈ v) && !obstacle n)).map (fun n => (n, d + 1)))
      (v ∪ ((getNeighbors rows cols c.1 c.2).filter
        (fun n => !decide (n ∈ v) && !obstacle n)).toFinset)
      (fun x => if x ∈ (getNeighbors rows cols c.1 c.2).filter
        (fun n => !decide (n ∈ v) && !obstacle n)
        then ((d + 1 : ℕ) : ℕ∞) else f x) := by
  set ns := (getNeighbors rows cols c.1 c.2).filter
    (fun n => !decide (n ∈ v) && !obstacle n) with hnsdef
  have hns_mem : ∀ {n : Cell}, n ∈ ns ↔
      n ∈ getNeighbors rows cols c.1 c.2 ∧ n ∉ v ∧ obstacle n = false := by
    intro n
    rw [hnsdef, List.mem_filter]
    simp [and_assoc]
  have hdist : ∀ n ∈ ns, distSpec rows cols obstacle seeds n = ((d + 1 : ℕ) : ℕ∞) := by
    intro n hn
    obtain ⟨hnb, hnv, hob⟩ := hns_mem.mp hn
    exact bfs_ns_dist inv hnb hnv hob
  have hrest_lb : ∀ e ∈ rest, d ≤ e.2 := sorted_head_le inv.sorted
  have hrest_ub : ∀ e ∈ rest, e.2 ≤ d + 1 := fun e he =>
    inv.span e (List.mem_cons_of_mem _ he) (c, d) (List.mem_cons_self _ _)
  have hmem_new : ∀ e ∈ rest ++ ns.map (fun n => (n, d + 1)),
      d ≤ e.2 ∧ e.2 ≤ d + 1 := by
    intro e he
    rcases List.mem_append.mp he with h | h
    · exact ⟨hrest_lb e h, hrest_ub e h⟩
    · obtain ⟨n, hn, rfl⟩ := List.mem_map.mp h
      exact ⟨by omega, le_rfl⟩
  constructor
  · -- sorted
    rw [List.map_append]
    refine List.pairwise_append.mpr ⟨?_, ?_, ?_⟩
    · have hs := inv.sorted
      simp only [List.map_cons] at hs
      exact (List.sorted_cons.mp hs).2
    · have hmapmap : (ns.map (fun n => (n, d + 1))).map Prod.snd
          = ns.map (fun _ => d + 1) := by
        rw [List.map_map]
        rfl
      rw [hmapmap]
      exact sorted_const_map (d + 1) ns
    · intro a ha b hb
      obtain ⟨ea, hea, rfl⟩ := List.mem_map.mp ha
      obtain ⟨eb, heb, rfl⟩ := List.mem_map.mp hb
      obtain ⟨n, hn, rfl⟩ := List.mem_map.mp heb
      exact hrest_ub ea hea
  · -- span
    intro e he e2 he2
    have h1 := hmem_new e he
    have h2 := hmem_new e2 he2
    omega
  · -- sound
    intro e he
    rcases List.mem_append.mp he with h | h
    · obtain ⟨hv1, hd1⟩ := inv.sound e (List.mem_cons_of_mem _ h)
      exact ⟨Finset.mem_union_left _ hv1, hd1⟩
    · obtain ⟨n, hn, rfl⟩ := List.mem_map.mp h
      exact ⟨Finset.mem_union_right _ (List.mem_toFinset.mpr hn), hdist n hn⟩
  · -- visited_field
    intro x hx
    by_cases hxn : x ∈ ns
    · rw [if_pos hxn]
      exact (hdist x hxn).symm
    · rw [if_neg hxn]
      have hxv : x ∈ v := by
        rcases Finset.mem_union.mp hx with h | h
        · exact h
        · exact absurd (List.mem_toFinset.mp h) hxn
      exact inv.visited_field x hxv
  · -- unvisited_field
    intro x hx
    have hxv : x ∉ v := fun h => hx (Finset.mem_union_left _ h)
    have hxn : x ∉ ns := fun h =>
      hx (Finset.mem_union_right _ (List.mem_toFinset.mpr h))
    rw [if_neg hxn]
    exact inv.unvisited_field x hxv
  · -- seeds_visited
    exact fun s hs => Finset.mem_union_left _ (inv.seeds_visited s hs)
  · -- closure
    intro pc hpc hpcq n hnb hob
    by_cases hpcns : pc ∈ ns
    · exact absurd (List.mem_append.mpr (Or.inr
        (List.mem_map.mpr ⟨pc, hpcns, rfl⟩))) (hpcq (d + 1))
    · have hpcv : pc ∈ v := by
        rcases Finset.mem_union.mp hpc with h | h
        · exact h
        · exact absurd (List.mem_toFinset.mp h) hpcns
      by_cases hpcc : pc = c
      · subst hpcc
        by_cases hnv : n ∈ v
        · exact Finset.mem_union_left _ hnv
        · exact Finset.mem_union_right _
            (List.mem_toFinset.mpr (hns_mem.mpr ⟨hnb, hnv, hob⟩))
      · have hpq_old : ∀ dd : ℕ, (pc, dd) ∉ ((c, d) :: rest) := by
          intro dd hdd
          rcases List.mem_cons.mp hdd with h | h
          · exact hpcc (congrArg Prod.fst h)
          · exact hpcq dd (List.mem_append.mpr (Or.inl h))
        exact Finset.mem_union_left _ (inv.closure pc hpcv hpq_old n hnb hob)
  · -- complete_below
    intro x hx
    cases hq : rest ++ ns.map (fun n => (n, d + 1)) with
    | nil =>
        -- the queue is exhausted: the old queue was [(c, d)] and ns = []
        obtain ⟨hrest_nil, hns_nil⟩ := List.append_eq_nil.mp hq
        have hns_empty : ns = [] := by
          cases hns2 : ns with
          | nil => rfl
          | cons a l => rw [hns2] at hns_nil; simp at hns_nil
        have inv1 : BfsInv rows cols obstacle seeds [(c, d)] v f := by
          rw [hrest_nil] at inv
          exact inv
        have hallnb : ∀ n ∈ getNeighbors rows cols c.1 c.2,
            obstacle n = false → n ∈ v := by
          intro n hnb hob
          by_cases hnv : n ∈ v
          · exact hnv
          · have : n ∈ ns := hns_mem.mpr ⟨hnb, hnv, hob⟩
            rw [hns_empty] at this
            simp at this
        rw [hq] at hx
        have hfin : distSpec rows cols obstacle seeds x ≠ ⊤ := by
          intro htop
          rw [htop] at hx
          exact absurd hx (by simp [headDistance])
        obtain ⟨m, hm⟩ := distSpec_ne_top hfin
        exact Finset.mem_union_left _ (bfs_last_visits_all inv1 hallnb m x hm)
    | cons e tail =>
        have he_mem : e ∈ rest ++ ns.map (fun n => (n, d + 1)) := by
          rw [hq]
          exact List.mem_cons_self _ _
        have hub := (hmem_new e he_mem).2
        rw [hq] at hx
        have hx2 : distSpec rows cols obstacle seeds x < ((d + 1 : ℕ) : ℕ∞) := by
          refine lt_of_lt_of_le hx ?_
          have : headDistance (e :: tail) = (e.2 : ℕ∞) := by
            cases e
            rfl
          rw [this]
          exact_mod_cast hub
        obtain ⟨m, hm, hmlt⟩ := enat_lt_coe hx2
        exact Finset.mem_union_left _
          (bfs_below_head inv m (by omega) x hm)

/-- Main BFS loop correctness: from any state satisfying the invariant,
with fuel at least the measure, the final field is the true distance. -/
theorem bfsAux_correct (rows cols : ℤ) (obstacle : Cell → Bool) (seeds : List Cell) :
    ∀ (fuel : ℕ) (q : List (Cell × ℕ)) (v : Finset Cell) (f : Cell → ℕ∞),
      BfsInv rows cols obstacle seeds q v f →
      bfsMeasure rows cols q v ≤ fuel →
      ∀ x : Cell, bfsAux rows cols obstacle fuel q v f x =
        distSpec rows cols obstacle seeds x := by
  intro fuel
  induction fuel with
  | zero =>
      intro q v f inv hmu x
      have hq : q = [] := by
        unfold bfsMeasure at hmu
        have h0 : q.length = 0 := by omega
        exact List.length_eq_zero.mp h0
      subst hq
      exact bfs_final inv x
  | succ fuel ih =>
      intro q v f inv hmu x
      match q with
      | [] => exact bfs_final inv x
      | (c, d) :: rest =>
          set ns := (getNeighbors rows cols c.1 c.2).filter
            (fun n => !decide (n ∈ v) && !obstacle n) with hnsdef
          have hnodup : ns.Nodup :=
            List.Nodup.filter _ (getNeighbors_nodup rows cols c.1 c.2)
          have hsub : ns.toFinset ⊆ region rows cols \ v := by
            intro n hn
            rw [List.mem_toFinset] at hn
            rw [hnsdef, List.mem_filter] at hn
            obtain ⟨hnb, hcond⟩ := hn
            simp only [Bool.and_eq_true, Bool.not_eq_true',
              decide_eq_false_iff_not] at hcond
            exact Finset.mem_sdiff.mpr
              ⟨mem_region.mpr (getNeighbors_inBounds hnb), hcond.1⟩
          have hcards : ns.toFinset.card = ns.length :=
            List.toFinset_card_of_nodup hnodup
          have hlen : ns.length ≤ (region rows cols \ v).card := by
            rw [← hcards]
            exact Finset.card_le_card hsub
          have hsd : region rows cols \ (v ∪ ns.toFinset)
              = (region rows cols \ v) \ ns.toFinset := by
            ext a
            simp only [Finset.mem_sdiff, Finset.mem_union]
            tauto
          have hmu2 : bfsMeasure rows cols
              (rest ++ ns.map (fun n => (n, d + 1))) (v ∪ ns.toFinset) ≤ fuel := by
            unfold bfsMeasure at hmu ⊢
            rw [List.length_append, List.length_map, hsd,
              Finset.card_sdiff hsub, hcards]
            simp only [List.length_cons] at hmu
            omega
          have hrec := ih (rest ++ ns.map (fun n => (n, d + 1))) (v ∪ ns.toFinset)
            (fun y => if y ∈ ns then ((d + 1 : ℕ) : ℕ∞) else f y)
            (bfsInv_step inv) hmu2 x
          simp only [bfsAux]
          exact hrec

/-- The state seeded from the node cells satisfies the invariant. -/
theorem bfsInv_init (rows cols : ℤ) (obstacle : Cell → Bool) (seeds : List Cell) :
    BfsInv rows cols obstacle seeds (seeds.map (fun s => (s, 0))) seeds.toFinset
      (fun x => if x ∈ seeds then (0 : ℕ∞) else ⊤) := by
  constructor
  · have h : (seeds.map (fun s => (s, 0))).map Prod.snd
        = seeds.map (fun _ => 0) := by
      rw [List.map_map]
      rfl
    rw [h]
    exact sorted_const_map 0 seeds
  · intro e he e2 he2
    obtain ⟨s, hs, rfl⟩ := List.mem_map.mp he
    simp
  · intro e he
    obtain ⟨s, hs, rfl⟩ := List.mem_map.mp he
    exact ⟨List.mem_toFinset.mpr hs, by simpa using distSpec_seed hs⟩
  · intro x hx
    rw [List.mem_toFinset] at hx
    rw [if_pos hx, distSpec_seed hx]
  · intro x hx
    simp only [List.mem_toFinset] at hx
    rw [if_neg hx]
  · exact fun s hs => List.mem_toFinset.mpr hs
  · intro pc hpc hpcq n hnb hob
    exact absurd (List.mem_map.mpr ⟨pc, List.mem_toFinset.mp hpc, rfl⟩) (hpcq 0)
  · intro x hx
    rcases seeds with _ | ⟨s0, stail⟩
    · exfalso
      have hx2 : distSpec rows cols obstacle [] x < ⊤ := by
        simpa [headDistance] using hx
      obtain ⟨m, hm⟩ := distSpec_ne_top hx2.ne
      obtain ⟨s, hs, _⟩ := distSpec_mem hm
      simp at hs
    · exfalso
      have hhd : headDistance ((s0 :: stail).map (fun s => (s, 0)))
          = ((0 : ℕ) : ℕ∞) := rfl
      rw [hhd] at hx
      exact absurd hx (by simp)

/-- The static field computed at construction is exactly the minimum
8-connected hop distance to the nearest seeded node cell (`⊤` when
unreachable). -/
theorem computeStaticFieldAux_eq_distSpec (rows cols : ℤ)
    (obstacle : Cell → Bool) (seeds : List Cell) (x : Cell) :
    computeStaticFieldAux rows cols obstacle seeds x =
      distSpec rows cols obstacle seeds x := by
  refine bfsAux_correct rows cols obstacle seeds _ _ _ _
    (bfsInv_init rows cols obstacle seeds) ?_ x
  unfold bfsMeasure
  rw [List.length_map]
  have h1 : (region rows cols \ seeds.toFinset).card ≤ (region rows cols).card :=
    Finset.card_le_card (Finset.sdiff_subset)
  rw [region_card] at h1
  omega

/-!
## Claim C1: the static field is the minimum hop distance

`distSpec` is exactly the claim's notion: the least number of 8-connected
hops from a node's (in-bounds) cell, where each hop steps into an
in-bounds non-obstacle cell; `⊤` when no such walk exists. -/

/-- Claim C1: for every parameter set, node list, obstacle grid and cell,
the static field of the freshly constructed engine equals the minimum
8-connected hop count from the nearest node cell, and `⊤` (infinity) for
cells without any obstacle-free walk from a node cell. -/
theorem static_field_eq_min_hops (p : SimulationParams) (nodes : List Node)
    (obstacles : Option (List (List Bool))) (rng : ℕ → ℚ) (k : ℕ) (x : Cell) :
    (mkEngine p nodes obstacles rng k).1.staticField x =
      distSpec (gridRowsOf p) (gridColsOf p)
        (obstacleAt (mkEngine p nodes obstacles rng k).1.obstacleGrid)
        (seedsOf p.gridSize (gridRowsOf p) (gridColsOf p) nodes) x := by
  cases obstacles with
  | none => exact computeStaticFieldAux_eq_distSpec _ _ _ _ _
  | some g => exact computeStaticFieldAux_eq_distSpec _ _ _ _ _

/-!
## Claim C9: obstacle cells in the BFS
-/

/-- Claim C9, counterexample: a node seeded on an obstacle cell is placed
on the BFS frontier and gets static value 0, not infinity — on a 2×2 grid
with the single node cell (0,0) marked as an obstacle, the computed field
at (0,0) is 0. -/
theorem obstacle_seed_counterexample :
    (fun c : Cell => decide (c = ((0 : ℤ), (0 : ℤ)))) ((0 : ℤ), (0 : ℤ)) = true ∧
      computeStaticFieldAux 2 2 (fun c => decide (c = ((0 : ℤ), (0 : ℤ))))
        [((0 : ℤ), (0 : ℤ))] ((0 : ℤ), (0 : ℤ)) = 0 :=
  ⟨by decide, by decide⟩

/-- Claim C9, amended: during expansion the BFS never visits an obstacle
cell, so every obstacle cell that is not itself a seeded node cell keeps
static value infinity (a node's own cell is seeded at 0 even when it is an
obstacle). -/
theorem obstacle_nonseed_unreachable (rows cols : ℤ) (obstacle : Cell → Bool)
    (seeds : List Cell) (c : Cell)
    (hobs : obstacle c = true) (hc : c ∉ seeds) :
    computeStaticFieldAux rows cols obstacle seeds c = ⊤ := by
  rw [computeStaticFieldAux_eq_distSpec]
  apply distSpec_eq_top
  rintro ⟨m, s, hs, hr⟩
  cases hr with
  | refl => exact hc hs
  | step hr2 hn ho =>
      rw [hobs] at ho
      exact absurd ho (by simp)

/-- Witness for the amended C9 at a concrete instance: on a 2×2 grid with
node cell (0,0) and an obstacle at (0,1), the obstacle cell keeps value
`⊤`. -/
theorem obstacle_nonseed_unreachable_witness :
    ((fun c : Cell => decide (c = ((0 : ℤ), (1 : ℤ)))) ((0 : ℤ), (1 : ℤ)) = true ∧
        ((0 : ℤ), (1 : ℤ)) ∉ [((0 : ℤ), (0 : ℤ))]) ∧
      computeStaticFieldAux 2 2 (fun c => decide (c = ((0 : ℤ), (1 : ℤ))))
        [((0 : ℤ), (0 : ℤ))] ((0 : ℤ), (1 : ℤ)) = ⊤ :=
  ⟨⟨by decide, by decide⟩,
    obstacle_nonseed_unreachable 2 2 _ _ _ (by decide) (by decide)⟩

/-!
## Claim C4: construction never fails
-/

/-- Claim C4, counterexample: the specified construction-time validation
rejects a 1×1 obstacle grid supplied for a 1×2 engine, yet the constructor
happily produces an engine storing that mismatched grid.  The constructor
performs no validation at all. -/
theorem constructor_no_validation_counterexample :
    validConstruction c4params (some c4grid) = false ∧
      (mkEngine c4params [] (some c4grid) rngZero 0).1.obstacleGrid = c4grid := by
  refine ⟨?_, rfl⟩
  have h2 : gridColsOf c4params = 2 := by norm_num [gridColsOf, c4params]
  simp [validConstruction, h2, c4grid]

/-- Claim C4, amended: the constructor performs none of the specified
validation.  Whenever construction completes at all (the
`constructionCompletes` domain, which excludes only the incidental
`Array` `RangeError` and missing-obstacle-row `TypeError` paths, neither
of them the specified check), an engine instance is produced storing the
parameters, the obstacle grid (of any shape) and the nodes exactly as
given — in particular on inputs that the specified validation rejects. -/
theorem constructor_accepts_all_inputs (p : SimulationParams)
    (nodes : List Node) (g : List (List Bool)) (rng : ℕ → ℚ) (k : ℕ)
    (h : constructionCompletes p (some g) = true) :
    (mkEngine p nodes (some g) rng k).1.obstacleGrid = g ∧
      (mkEngine p nodes (some g) rng k).1.params = p ∧
      (mkEngine p nodes (some g) rng k).1.nodes = nodes :=
  ⟨rfl, rfl, rfl⟩

/-- Witness for the amended C4: the counterexample's input — a 1×2 engine
handed a mismatched 1×1 obstacle grid, which the specified validation
rejects — lies in the completing domain, and the constructor stores
everything verbatim. -/
theorem constructor_accepts_all_inputs_witness :
    constructionCompletes c4params (some c4grid) = true ∧
      ((mkEngine c4params [] (some c4grid) rngZero 0).1.obstacleGrid = c4grid ∧
        (mkEngine c4params [] (some c4grid) rngZero 0).1.params = c4params ∧
        (mkEngine c4params [] (some c4grid) rngZero 0).1.nodes = []) :=
  ⟨by norm_num [constructionCompletes, gridRowsOf, gridColsOf, c4params, c4grid],
    constructor_accepts_all_inputs c4params [] c4grid rngZero 0
      (by norm_num [constructionCompletes, gridRowsOf, gridColsOf, c4params, c4grid])⟩

/-!
## Claim C10: statistics over an empty agent pool
-/

/-- Claim C10: with an empty agent pool `getStatistics` reports
`totalAgents = 0` and its average-distance value is the unguarded quotient
`0/0`, i.e. NaN (modelled `none`), not `0` and not an error. -/
theorem statistics_empty_agents_nan (e : Engine) (h : e.agents = []) :
    (getStatistics e).totalAgents = 0 ∧
      (getStatistics e).avgDistanceTraveled = none := by
  simp [getStatistics, h]

/-- Witness for C10: an engine constructed with one requested agent but no
nodes spawns no agents at all. -/
theorem statistics_empty_agents_nan_witness :
    (getStatistics (mkEngine sbParams [] none rngZero 0).1).totalAgents = 0 ∧
      (getStatistics (mkEngine sbParams [] none rngZero 0).1).avgDistanceTraveled = none := by
  have h : (mkEngine sbParams [] none rngZero 0).1.agents = [] := by
    simp [mkEngine, spawnAgents, sbParams, spawnLoop, listIdx]
  exact statistics_empty_agents_nan _ h

/-!
## Claim C8: congestion is non-decreasing across steps
-/

theorem depositAt_cong_le (rows cols : ℤ) (cc : Cell) (f : FieldPair) (c : Cell) :
    f.cong c ≤ (depositAt rows cols cc f).cong c := by
  unfold depositAt
  split
  · by_cases h : c = cc <;> simp [h]
  · exact le_rfl

theorem processAgents_cong_le (e : Engine) (rng : ℕ → ℚ) :
    ∀ (as : List Agent) (f : FieldPair) (k : ℕ) (c : Cell),
      f.cong c ≤ (processAgents e rng f as k).2.1.cong c := by
  intro as
  induction as with
  | nil => intro f k c; exact le_rfl
  | cons a as ih =>
      intro f k c
      calc f.cong c
          ≤ (depositAt e.gridRows e.gridCols
              (worldToGrid e.params.gridSize a.x a.y) f).cong c :=
            depositAt_cong_le _ _ _ _ _
        _ ≤ (processAgents e rng f (a :: as) k).2.1.cong c := by
            simpa [processAgents, agentStep] using
              ih (depositAt e.gridRows e.gridCols
                (worldToGrid e.params.gridSize a.x a.y) f) _ c

/-!
## Claim C2: deposits are interleaved with movement

The source's `step` runs deposit-then-move per agent inside one loop, so a
later agent's selection can observe an earlier agent's same-step deposit.
When the dynamic weight is zero the interleaving is unobservable and the
step coincides with the specification's two-phase semantics.
-/

theorem candWeight_dyn_irrel {p : SimulationParams}
    (hw : p.dynamicWeight = 0) (S : ℕ∞) (d1 d2 u : ℚ) :
    candWeight p S d1 u = candWeight p S d2 u := by
  unfold candWeight
  by_cases hS : S = ⊤
  · rw [if_pos hS, if_pos hS]
  · rw [if_neg hS, if_neg hS, hw]
    push_cast
    ring_nf

theorem collectCandidates_dyn_irrel {p : SimulationParams}
    (hw : p.dynamicWeight = 0) (static : Cell → ℕ∞) (d1 d2 : Cell → ℚ)
    (obst : Cell → Bool) (rng : ℕ → ℚ) :
    ∀ (l : List Cell) (k : ℕ),
      collectCandidates p static d1 obst rng l k
        = collectCandidates p static d2 obst rng l k := by
  intro l
  induction l with
  | nil => intro k; rfl
  | cons nb rest ih =>
      intro k
      by_cases h : obst nb
      · simp only [collectCandidates, if_pos h]
        exact ih k
      · simp only [collectCandidates, if_neg h]
        rw [ih (k + 1), candWeight_dyn_irrel hw (static nb) (d1 nb) (d2 nb)]

theorem selectNextCell_dyn_irrel {p : SimulationParams}
    (hw : p.dynamicWeight = 0) (static : Cell → ℕ∞) (d1 d2 : Cell → ℚ)
    (obst : Cell → Bool) (rows cols : ℤ) (rng : ℕ → ℚ) (row col : ℤ) (k : ℕ) :
    selectNextCell p static d1 obst rows cols rng row col k
      = selectNextCell p static d2 obst rows cols rng row col k := by
  unfold selectNextCell
  rw [collectCandidates_dyn_irrel hw static d1 d2 obst rng]

theorem agentMoveRetarget_dyn_irrel {e : Engine}
    (hw : e.params.dynamicWeight = 0) (d1 d2 : Cell → ℚ) (rng : ℕ → ℚ)
    (a : Agent) (k : ℕ) :
    agentMoveRetarget e d1 rng a k = agentMoveRetarget e d2 rng a k := by
  unfold agentMoveRetarget
  simp only [selectNextCell_dyn_irrel hw e.staticField d1 d2]

/-- With zero dynamic weight, the interleaved agent loop factors into the
specification's deposit phase followed by a pure move phase. -/
theorem processAgents_two_phase (e : Engine) (rng : ℕ → ℚ)
    (hw : e.params.dynamicWeight = 0) :
    ∀ (as : List Agent) (f : FieldPair) (k : ℕ) (dynArb : Cell → ℚ),
      processAgents e rng f as k =
        ((movePhase e dynArb rng as k).1,
         depositPhase e.gridRows e.gridCols e.params.gridSize as f,
         (movePhase e dynArb rng as k).2) := by
  intro as
  induction as with
  | nil => intro f k dynArb; rfl
  | cons a as ih =>
      intro f k dynArb
      simp only [processAgents, agentStep, movePhase, depositPhase, List.foldl_cons]
      rw [ih (depositAt e.gridRows e.gridCols
        (worldToGrid e.params.gridSize a.x a.y) f) _ dynArb]
      rw [agentMoveRetarget_dyn_irrel hw
        (depositAt e.gridRows e.gridCols
          (worldToGrid e.params.gridSize a.x a.y) f).dyn dynArb]
      rfl

/-- Claim C2, amended: the deposit of each agent happens just before its
own move (not before all moves), but whenever the dynamic weight is zero
the step is observationally identical to the specification's
deposit-everything-first two-phase step. -/
theorem step_eq_two_phase_of_dynamic_weight_zero (e : Engine) (rng : ℕ → ℚ)
    (k : ℕ) (hw : e.params.dynamicWeight = 0) :
    stepEngine e rng k = twoPhaseStep e rng k := by
  unfold stepEngine twoPhaseStep
  rw [processAgents_two_phase e rng hw e.agents ⟨e.dynamicField, e.congestionMap⟩ k
    (depositPhase e.gridRows e.gridCols e.params.gridSize e.agents
      ⟨e.dynamicField, e.congestionMap⟩).dyn]

/-- Witness for the amended C2 at a concrete engine with zero dynamic
weight. -/
theorem step_eq_two_phase_witness :
    sbParams.dynamicWeight = 0 ∧
      stepEngine (mkEngine sbParams sbNodes none sbRng 0).1 sbRng 2
        = twoPhaseStep (mkEngine sbParams sbNodes none sbRng 0).1 sbRng 2 :=
  ⟨rfl, step_eq_two_phase_of_dynamic_weight_zero
    (mkEngine sbParams sbNodes none sbRng 0).1 sbRng 2 rfl⟩

/-!
## Claim C5: movement selection refines the specified stochastic model
-/

theorem candWeight_pos (p : SimulationParams) {S : ℕ∞} (hS : S ≠ ⊤)
    (Dv u : ℚ) : 0 < candWeight p S Dv u := by
  unfold candWeight
  rw [if_neg hS]
  exact Real.exp_pos _

theorem collectCandidates_eq (p : SimulationParams) (static : Cell → ℕ∞)
    (dyn : Cell → ℚ) (obst : Cell → Bool) (rng : ℕ → ℚ) :
    ∀ (l : List Cell) (k : ℕ),
      collectCandidates p static dyn obst rng l k =
        (drawWeights p static dyn rng k (l.filter (fun n => !obst n)),
         k + (l.filter (fun n => !obst n)).length) := by
  intro l
  induction l with
  | nil => intro k; simp [collectCandidates, drawWeights]
  | cons nb rest ih =>
      intro k
      simp only [collectCandidates]
      by_cases h : obst nb
      · rw [if_pos h, ih k]
        simp [List.filter_cons, h]
      · rw [if_neg h, ih (k + 1)]
        simp only [List.filter_cons, h, Bool.not_false, if_pos]
        simp [drawWeights]
        omega

theorem specCandidates_eq (obst : Cell → Bool) (rows cols row col : ℤ) :
    specCandidates obst rows cols row col
      = (getNeighbors rows cols row col).filter (fun n => !obst n) := by
  unfold specCandidates getNeighbors
  rw [List.filter_filter]
  congr 1
  funext n
  rw [Bool.and_comm]

theorem cdfPick_normalize (total : ℝ) (htotal : 0 < total) (u : ℝ) :
    ∀ (l : List (Cell × ℝ)) (acc : ℝ),
      cdfPick (u * total) (acc * total) l
        = cdfPick u acc (l.map (fun cw => (cw.1, cw.2 / total))) := by
  intro l
  induction l with
  | nil => intro acc; simp [cdfPick]
  | cons hd tl ih =>
      intro acc
      obtain ⟨c, w⟩ := hd
      have hcond : (u * total ≤ acc * total + w) ↔ (u ≤ acc + w / total) := by
        have h2 : acc + w / total = (acc * total + w) / total := by
          field_simp
        rw [h2, le_div_iff₀ htotal]
      have hacc : acc * total + w = (acc + w / total) * total := by
        field_simp
      cases tl with
      | nil =>
          simp only [cdfPick, List.map_cons, List.map_nil]
          by_cases h : u * total ≤ acc * total + w
          · rw [if_pos h, if_pos (hcond.mp h)]
          · rw [if_neg h, if_neg (fun hc => h (hcond.mpr hc))]
      | cons t ts =>
          simp only [cdfPick, List.map_cons]
          by_cases h : u * total ≤ acc * total + w
          · rw [if_pos h, if_pos (hcond.mp h)]
          · rw [if_neg h, if_neg (fun hc => h (hcond.mpr hc))]
            rw [hacc]
            exact ih (acc + w / total)

theorem drawWeights_pos (p : SimulationParams) (static : Cell → ℕ∞)
    (dyn : Cell → ℚ) (rng : ℕ → ℚ) :
    ∀ (l : List Cell) (k : ℕ), (∀ n ∈ l, static n ≠ ⊤) →
      ∀ w ∈ (drawWeights p static dyn rng k l).map Prod.snd, 0 < w := by
  intro l
  induction l with
  | nil => intro k h w hw; simp [drawWeights] at hw
  | cons n rest ih =>
      intro k h w hw
      simp only [drawWeights, List.map_cons, List.mem_cons] at hw
      rcases hw with rfl | hw
      · exact candWeight_pos p (h n (List.mem_cons_self _ _)) _ _
      · exact ih (k + 1) (fun x hx => h x (List.mem_cons_of_mem _ hx)) w hw

theorem drawWeights_length (p : SimulationParams) (static : Cell → ℕ∞)
    (dyn : Cell → ℚ) (rng : ℕ → ℚ) :
    ∀ (l : List Cell) (k : ℕ),
      (drawWeights p static dyn rng k l).length = l.length := by
  intro l
  induction l with
  | nil => intro k; rfl
  | cons n rest ih => intro k; simp [drawWeights, ih (k + 1)]

/-- Claim C5: the per-agent movement selection is exactly the specified
stochastic model — the candidate set is the in-bounds non-obstacle Moore
neighbourhood, each candidate's unnormalised weight is
`exp(-w_s·S + w_d·D + ε·(U - 1/2))` with one fresh uniform draw per
candidate in order, and the choice is made by cumulative-distribution
inversion over the normalised weights (the selection draw being consumed
after the per-candidate draws). -/
theorem select_next_cell_spec (p : SimulationParams) (static : Cell → ℕ∞)
    (dyn : Cell → ℚ) (obst : Cell → Bool) (rows cols : ℤ) (rng : ℕ → ℚ)
    (row col : ℤ) (k : ℕ)
    (hfin : ∀ n ∈ specCandidates obst rows cols row col, static n ≠ ⊤) :
    selectNextCell p static dyn obst rows cols rng row col k
      = specSelectNextCell p static dyn obst rows cols rng row col k ∧
    (∀ (S : ℕ∞), S ≠ ⊤ → ∀ Dv u : ℚ, candWeight p S Dv u
      = Real.exp (-(p.staticWeight : ℝ) * (S.toNat : ℝ)
          + (p.dynamicWeight : ℝ) * (Dv : ℝ)
          + (p.randomness : ℝ) * ((u : ℝ) - 1/2))) := by
  refine ⟨?_, ?_⟩
  · unfold selectNextCell specSelectNextCell
    rw [collectCandidates_eq, ← specCandidates_eq]
    cases hc : specCandidates obst rows cols row col with
    | nil => simp [drawWeights]
    | cons c0 cs =>
        rw [hc] at hfin
        have hpos := drawWeights_pos p static dyn rng (c0 :: cs) k hfin
        have hne : (drawWeights p static dyn rng k (c0 :: cs)).map Prod.snd ≠ [] := by
          intro hnil
          have hl := congrArg List.length hnil
          rw [List.length_map, drawWeights_length] at hl
          simp at hl
        have htotal : 0 <
            ((drawWeights p static dyn rng k (c0 :: cs)).map Prod.snd).sum :=
          List.sum_pos _ hpos hne
        dsimp only
        rw [if_neg (ne_of_gt htotal)]
        have hz : (0 : ℝ) = 0 *
            ((drawWeights p static dyn rng k (c0 :: cs)).map Prod.snd).sum := by
          ring
        refine Prod.ext ?_ rfl
        dsimp only
        conv_lhs => rw [hz]
        exact cdfPick_normalize _ htotal _ _ 0
  · intro S hS Dv u
    unfold candWeight
    rw [if_neg hS]

/-- Witness for C5 on a concrete 1x2 grid from cell (0,0). -/
theorem select_next_cell_spec_witness :
    (∀ n ∈ specCandidates (fun _ => false) 1 2 0 0, tinyStatic n ≠ ⊤) ∧
      selectNextCell c2params tinyStatic (fun _ => 0) (fun _ => false) 1 2
        rngZero 0 0 0
      = specSelectNextCell c2params tinyStatic (fun _ => 0) (fun _ => false) 1 2
        rngZero 0 0 0 :=
  ⟨by decide,
    (select_next_cell_spec c2params tinyStatic (fun _ => 0) (fun _ => false)
      1 2 rngZero 0 0 0 (by decide)).1⟩

/-!
## Claim C2: the counterexample to deposit-all-first

On the 1×4 corridor, agent 1 (cell (0,1)) selects among cells (0,0) and
(0,2) with dynamic-field weights.  Under the interleaved source semantics
agent 2's deposit at (0,2) has not happened yet when agent 1 selects, so
both candidates weigh `exp 0 = 1` and the draw 2/5 picks (0,0); under the
specification's deposit-all-first semantics the candidate (0,2) weighs
`exp 1`, and the same draw picks (0,2).
-/

theorem sel_c2_inter (dyn : Cell → ℚ)
    (h0 : dyn ((0 : ℤ), (0 : ℤ)) = 0) (h2 : dyn ((0 : ℤ), (2 : ℤ)) = 0) :
    selectNextCell c2params c2static dyn (obstacleAt (defaultObstacleGrid 1 4))
      1 4 c2rng 0 1 0 = (some ((0 : ℤ), (0 : ℤ)), 3) := by
  unfold selectNextCell
  rw [collectCandidates_eq]
  have hnb : getNeighbors 1 4 0 1 = [((0 : ℤ), (0 : ℤ)), ((0 : ℤ), (2 : ℤ))] := by
    decide
  rw [hnb]
  have hfil : ([((0 : ℤ), (0 : ℤ)), ((0 : ℤ), (2 : ℤ))].filter
      (fun n => !obstacleAt (defaultObstacleGrid 1 4) n))
      = [((0 : ℤ), (0 : ℤ)), ((0 : ℤ), (2 : ℤ))] := by decide
  rw [hfil]
  have hs0 : c2static ((0 : ℤ), (0 : ℤ)) = ((0 : ℕ) : ℕ∞) := by decide
  have hs2 : c2static ((0 : ℤ), (2 : ℤ)) = ((2 : ℕ) : ℕ∞) := by decide
  have hw0 : candWeight c2params (c2static ((0 : ℤ), (0 : ℤ)))
      (dyn ((0 : ℤ), (0 : ℤ))) (c2rng 0) = 1 := by
    rw [hs0, h0]
    simp only [candWeight]
    rw [if_neg (by decide)]
    norm_num [c2params, c2rng]
  have hw2 : candWeight c2params (c2static ((0 : ℤ), (2 : ℤ)))
      (dyn ((0 : ℤ), (2 : ℤ))) (c2rng 1) = 1 := by
    rw [hs2, h2]
    simp only [candWeight]
    rw [if_neg (by decide)]
    norm_num [c2params, c2rng]
  simp only [drawWeights, hw0, hw2]
  have hsum : (([(((0 : ℤ), (0 : ℤ)), (1 : ℝ)),
      (((0 : ℤ), (2 : ℤ)), (1 : ℝ))]).map Prod.snd).sum = 2 := by
    norm_num
  rw [hsum]
  rw [if_neg (by norm_num)]
  have hlen : 0 + [((0 : ℤ), (0 : ℤ)), ((0 : ℤ), (2 : ℤ))].length = 2 := by
    norm_num
  rw [hlen]
  have hrand : ((c2rng 2 : ℚ) : ℝ) * 2 = 4 / 5 := by
    norm_num [c2rng]
  rw [hrand]
  simp only [cdfPick]
  rw [if_pos (by norm_num)]

theorem sel_c2_two (dyn : Cell → ℚ)
    (h0 : dyn ((0 : ℤ), (0 : ℤ)) = 0) (h2 : dyn ((0 : ℤ), (2 : ℤ)) = 1) :
    selectNextCell c2params c2static dyn (obstacleAt (defaultObstacleGrid 1 4))
      1 4 c2rng 0 1 0 = (some ((0 : ℤ), (2 : ℤ)), 3) := by
  unfold selectNextCell
  rw [collectCandidates_eq]
  have hnb : getNeighbors 1 4 0 1 = [((0 : ℤ), (0 : ℤ)), ((0 : ℤ), (2 : ℤ))] := by
    decide
  rw [hnb]
  have hfil : ([((0 : ℤ), (0 : ℤ)), ((0 : ℤ), (2 : ℤ))].filter
      (fun n => !obstacleAt (defaultObstacleGrid 1 4) n))
      = [((0 : ℤ), (0 : ℤ)), ((0 : ℤ), (2 : ℤ))] := by decide
  rw [hfil]
  have hs0 : c2static ((0 : ℤ), (0 : ℤ)) = ((0 : ℕ) : ℕ∞) := by decide
  have hs2 : c2static ((0 : ℤ), (2 : ℤ)) = ((2 : ℕ) : ℕ∞) := by decide
  have hw0 : candWeight c2params (c2static ((0 : ℤ), (0 : ℤ)))
      (dyn ((0 : ℤ), (0 : ℤ))) (c2rng 0) = 1 := by
    rw [hs0, h0]
    simp only [candWeight]
    rw [if_neg (by decide)]
    norm_num [c2params, c2rng]
  have hw2 : candWeight c2params (c2static ((0 : ℤ), (2 : ℤ)))
      (dyn ((0 : ℤ), (2 : ℤ))) (c2rng 1) = Real.exp 1 := by
    rw [hs2, h2]
    simp only [candWeight]
    rw [if_neg (by decide)]
    norm_num [c2params, c2rng]
  simp only [drawWeights, hw0, hw2]
  have hexp := Real.add_one_le_exp (1 : ℝ)
  have hsum : (([(((0 : ℤ), (0 : ℤ)), (1 : ℝ)),
      (((0 : ℤ), (2 : ℤ)), Real.exp 1)]).map Prod.snd).sum = 1 + Real.exp 1 := by
    simp
  rw [hsum]
  rw [if_neg (by nlinarith)]
  have hlen : 0 + [((0 : ℤ), (0 : ℤ)), ((0 : ℤ), (2 : ℤ))].length = 2 := by
    norm_num
  rw [hlen]
  have hrand : ((c2rng 2 : ℚ) : ℝ) = 2 / 5 := by
    norm_num [c2rng]
  rw [hrand]
  simp only [cdfPick]
  rw [if_neg (by nlinarith)]
  rw [if_pos (by nlinarith)]

theorem c2_inter_head :
    ((stepEngine c2engine c2rng 0).1.agents.map Agent.x).head? = some 5 := by
  have hA : worldToGrid (10 : ℚ) 15 5 = ((0 : ℤ), (1 : ℤ)) := by
    norm_num [worldToGrid]
  have hd0 : (depositAt 1 4 ((0 : ℤ), (1 : ℤ))
      ⟨fun _ => (0 : ℚ), fun _ => (0 : ℕ)⟩).dyn ((0 : ℤ), (0 : ℤ)) = 0 := by
    simp [depositAt, inBoundsB]
    try decide
  have hd2 : (depositAt 1 4 ((0 : ℤ), (1 : ℤ))
      ⟨fun _ => (0 : ℚ), fun _ => (0 : ℕ)⟩).dyn ((0 : ℤ), (2 : ℤ)) = 0 := by
    simp [depositAt, inBoundsB]
    try decide
  have hsel := sel_c2_inter _ hd0 hd2
  have hg : gridToWorld (10 : ℚ) ((0 : ℤ), (0 : ℤ)) = (5, 5) := by
    norm_num [gridToWorld]
  have hfind : List.find? (fun n => decide (n.id = ("missing" : String)))
      [c2node] = none := by decide
  have hgs : c2params.gridSize = 10 := rfl
  simp only [stepEngine]
  rw [show c2engine.agents = [c2agentA, c2agentB] from rfl]
  simp only [processAgents, agentStep, agentMoveRetarget, c2engine, c2agentA,
    hgs, hA, hsel, hg, hfind, List.map_cons, List.head?_cons]

theorem c2_two_head :
    ((twoPhaseStep c2engine c2rng 0).1.agents.map Agent.x).head? = some 25 := by
  have hA : worldToGrid (10 : ℚ) 15 5 = ((0 : ℤ), (1 : ℤ)) := by
    norm_num [worldToGrid]
  have hB : worldToGrid (10 : ℚ) 25 5 = ((0 : ℤ), (2 : ℤ)) := by
    norm_num [worldToGrid]
  have hdep : depositPhase 1 4 10 [c2agentA, c2agentB]
      ⟨fun _ => (0 : ℚ), fun _ => (0 : ℕ)⟩
      = depositAt 1 4 ((0 : ℤ), (2 : ℤ)) (depositAt 1 4 ((0 : ℤ), (1 : ℤ))
        ⟨fun _ => (0 : ℚ), fun _ => (0 : ℕ)⟩) := by
    simp only [depositPhase, List.foldl_cons, List.foldl_nil, c2agentA, c2agentB]
    rw [hA, hB]
  have hd0 : (depositAt 1 4 ((0 : ℤ), (2 : ℤ)) (depositAt 1 4 ((0 : ℤ), (1 : ℤ))
      ⟨fun _ => (0 : ℚ), fun _ => (0 : ℕ)⟩)).dyn ((0 : ℤ), (0 : ℤ)) = 0 := by
    simp [depositAt, inBoundsB]
    try decide
  have hd2 : (depositAt 1 4 ((0 : ℤ), (2 : ℤ)) (depositAt 1 4 ((0 : ℤ), (1 : ℤ))
      ⟨fun _ => (0 : ℚ), fun _ => (0 : ℕ)⟩)).dyn ((0 : ℤ), (2 : ℤ)) = 1 := by
    simp [depositAt, inBoundsB]
    try decide
  have hsel := sel_c2_two _ hd0 hd2
  have hg2 : gridToWorld (10 : ℚ) ((0 : ℤ), (2 : ℤ)) = (25, 5) := by
    norm_num [gridToWorld]
  have hfind : List.find? (fun n => decide (n.id = ("missing" : String)))
      [c2node] = none := by decide
  have hgs : c2params.gridSize = 10 := rfl
  simp only [twoPhaseStep]
  rw [show c2engine.agents = [c2agentA, c2agentB] from rfl]
  simp only [c2engine, hgs, hdep]
  simp only [movePhase, agentMoveRetarget, c2agentA, hgs, hA, hsel, hg2, hfind,
    List.map_cons, List.head?_cons]

/-- Claim C2, counterexample: on the concrete two-agent corridor engine,
one interleaved `step()` and one specification-style deposit-all-first step
move agent 1 to different cells (world x-coordinate 5 versus 25): agent 1's
selection does not observe agent 2's same-step deposit under the source
semantics, so the deposit phase is not completed before movement begins. -/
theorem step_deposit_interleaving_counterexample :
    ((stepEngine c2engine c2rng 0).1.agents.map Agent.x).head? = some 5 ∧
    ((twoPhaseStep c2engine c2rng 0).1.agents.map Agent.x).head? = some 25 ∧
    stepEngine c2engine c2rng 0 ≠ twoPhaseStep c2engine c2rng 0 := by
  refine ⟨c2_inter_head, c2_two_head, ?_⟩
  intro h
  have h2 := c2_two_head.symm.trans (h ▸ c2_inter_head)
  simp at h2

/-!
## Claim C6: reset
-/

theorem spawnLoop_fresh (entry target : List Node) (rng : ℕ → ℚ) :
    ∀ (rem i k : ℕ),
      (spawnLoop entry target rng i rem k).1.length ≤ rem ∧
      ∀ a ∈ (spawnLoop entry target rng i rem k).1,
        a.path = [] ∧ a.distanceTraveled = 0 := by
  intro rem
  induction rem with
  | zero =>
      intro i k
      exact ⟨le_rfl, by simp [spawnLoop]⟩
  | succ rem ih =>
      intro i k
      have hrest := ih (i + 1) (k + 2)
      simp only [spawnLoop]
      cases h1 : listIdx entry ⌊rng k * (entry.length : ℚ)⌋ with
      | none =>
          refine ⟨le_trans hrest.1 (Nat.le_succ rem), hrest.2⟩
      | some en =>
          cases h2 : listIdx target ⌊rng (k + 1) * (target.length : ℚ)⌋ with
          | none =>
              refine ⟨le_trans hrest.1 (Nat.le_succ rem), hrest.2⟩
          | some tn =>
              refine ⟨?_, ?_⟩
              · simpa using Nat.succ_le_succ hrest.1
              · intro a ha
                rcases List.mem_cons.mp ha with h | h
                · subst h
                  exact ⟨rfl, rfl⟩
                · exact hrest.2 a h

/-- Claim C6: after `reset()` the step counter is 0, the dynamic field and
congestion map are identically 0, the agent pool has at most `numAgents`
fresh agents (empty path, zero distance), and the parameters, obstacle
grid, node registry and observable static field are unchanged (the static
field is recomputed, but from the same unchanged inputs). -/
theorem reset_spec (e : Engine) (rng : ℕ → ℚ) (k : ℕ)
    (hstatic : e.staticField = computeStaticFieldAux e.gridRows e.gridCols
      (obstacleAt e.obstacleGrid)
      (seedsOf e.params.gridSize e.gridRows e.gridCols e.nodes)) :
    (resetEngine e rng k).1.stepCount = 0 ∧
    (∀ c : Cell, (resetEngine e rng k).1.dynamicField c = 0) ∧
    (∀ c : Cell, (resetEngine e rng k).1.congestionMap c = 0) ∧
    (resetEngine e rng k).1.agents.length ≤ e.params.numAgents ∧
    (∀ a ∈ (resetEngine e rng k).1.agents,
      a.path = [] ∧ a.distanceTraveled = 0) ∧
    (resetEngine e rng k).1.params = e.params ∧
    (resetEngine e rng k).1.obstacleGrid = e.obstacleGrid ∧
    (resetEngine e rng k).1.nodes = e.nodes ∧
    (resetEngine e rng k).1.staticField = e.staticField := by
  refine ⟨rfl, fun c => rfl, fun c => rfl, ?_, ?_, rfl, rfl, rfl, hstatic.symm⟩
  · exact (spawnLoop_fresh _ _ rng e.params.numAgents 0 k).1
  · exact (spawnLoop_fresh _ _ rng e.params.numAgents 0 k).2

/-- Witness for C6 at a concrete freshly constructed engine (whose stored
static field is definitionally the recomputed one). -/
theorem reset_spec_witness :
    (resetEngine (mkEngine c2params [c2node] none rngZero 0).1 rngZero 5).1.stepCount = 0 ∧
    (resetEngine (mkEngine c2params [c2node] none rngZero 0).1 rngZero 5).1.params
      = (mkEngine c2params [c2node] none rngZero 0).1.params :=
  ⟨(reset_spec (mkEngine c2params [c2node] none rngZero 0).1 rngZero 5 rfl).1,
    ((reset_spec (mkEngine c2params [c2node] none rngZero 0).1 rngZero 5
      rfl).2.2.2.2.2).1⟩

/-!
## Claim C7: the dynamic field stays non-negative
-/

theorem depositAt_dyn_nonneg {rows cols : ℤ} {cc : Cell} {f : FieldPair}
    (h : ∀ c, 0 ≤ f.dyn c) : ∀ c, 0 ≤ (depositAt rows cols cc f).dyn c := by
  intro c
  unfold depositAt
  split
  · dsimp only
    split
    · linarith [h c]
    · exact h c
  · exact h c

theorem processAgents_dyn_nonneg (e : Engine) (rng : ℕ → ℚ) :
    ∀ (as : List Agent) (f : FieldPair) (k : ℕ),
      (∀ c, 0 ≤ f.dyn c) →
      ∀ c, 0 ≤ (processAgents e rng f as k).2.1.dyn c := by
  intro as
  induction as with
  | nil => intro f k h c; exact h c
  | cons a as ih =>
      intro f k h c
      exact ih _ _ (depositAt_dyn_nonneg h) c

theorem updateDynamicField_nonneg (p : SimulationParams) (rows cols : ℤ)
    (D : Cell → ℚ) (hd : 0 ≤ p.decayRate) (hdf : 0 ≤ p.diffusionRate)
    (h : ∀ c, 0 ≤ D c) : ∀ c, 0 ≤ updateDynamicField p rows cols D c := by
  intro c
  have hdec : ∀ x : Cell,
      0 ≤ (if inBoundsB rows cols x then D x * p.decayRate else D x) := by
    intro x
    split
    · exact mul_nonneg (h x) hd
    · exact h x
  simp only [updateDynamicField]
  split
  · dsimp only
    split
    · apply div_nonneg
      · refine add_nonneg (mul_nonneg (h c) hd) (List.sum_nonneg ?_)
        intro q hq
        obtain ⟨nb, hnb, rfl⟩ := List.mem_map.mp hq
        exact mul_nonneg (hdec nb) hdf
      · have hlen : (0 : ℚ) ≤ ((getNeighbors rows cols c.1 c.2).length : ℚ) := by
          positivity
        nlinarith
    · exact le_rfl
  · exact hdec c

theorem stepEngine_dyn_nonneg (e : Engine) (rng : ℕ → ℚ) (k : ℕ)
    (hd : 0 ≤ e.params.decayRate) (hdf : 0 ≤ e.params.diffusionRate)
    (h : ∀ c, 0 ≤ e.dynamicField c) :
    ∀ c, 0 ≤ (stepEngine e rng k).1.dynamicField c := by
  intro c
  exact updateDynamicField_nonneg e.params e.gridRows e.gridCols _ hd hdf
    (processAgents_dyn_nonneg e rng e.agents ⟨e.dynamicField, e.congestionMap⟩ k h) c

theorem stepEngine_params_eq (e : Engine) (rng : ℕ → ℚ) (k : ℕ) :
    (stepEngine e rng k).1.params = e.params := rfl

theorem stepEngine_rows_eq (e : Engine) (rng : ℕ → ℚ) (k : ℕ) :
    (stepEngine e rng k).1.gridRows = e.gridRows := rfl

theorem stepEngine_cols_eq (e : Engine) (rng : ℕ → ℚ) (k : ℕ) :
    (stepEngine e rng k).1.gridCols = e.gridCols := rfl

/-- Claim C7: with decay rate in [0,1] and diffusion rate at least 0, the
whole dynamic field stays non-negative after any finite sequence of advance
calls from the freshly constructed engine, for all draw outcomes. -/
theorem dynamic_field_nonneg (p : SimulationParams) (nodes : List Node)
    (obstacles : Option (List (List Bool))) (rng rng2 : ℕ → ℚ) (k : ℕ)
    (hdecay0 : 0 ≤ p.decayRate) (_hdecay1 : p.decayRate ≤ 1)
    (hdiff : 0 ≤ p.diffusionRate) (n : ℕ) (c : Cell) :
    0 ≤ (iterN rng2 n (mkEngine p nodes obstacles rng k)).1.dynamicField c := by
  have key : ∀ m : ℕ,
      (iterN rng2 m (mkEngine p nodes obstacles rng k)).1.params = p ∧
      ∀ c2 : Cell,
        0 ≤ (iterN rng2 m (mkEngine p nodes obstacles rng k)).1.dynamicField c2 := by
    intro m
    induction m with
    | zero => exact ⟨rfl, fun c2 => le_rfl⟩
    | succ m ih =>
        refine ⟨?_, ?_⟩
        · rw [iterN, stepEngine_params_eq, ih.1]
        · rw [iterN]
          refine stepEngine_dyn_nonneg _ rng2 _ ?_ ?_ ih.2
          · rw [ih.1]; exact hdecay0
          · rw [ih.1]; exact hdiff
  exact (key n).2 c

/-- Witness for C7 at Scenario B parameters after three steps. -/
theorem dynamic_field_nonneg_witness :
    (0 ≤ sbParams.decayRate ∧ sbParams.decayRate ≤ 1 ∧
      0 ≤ sbParams.diffusionRate) ∧
    0 ≤ (iterN sbRng 3 (mkEngine sbParams sbNodes none sbRng 0)).1.dynamicField
        ((0 : ℤ), (0 : ℤ)) :=
  ⟨⟨by simp [sbParams], by simp [sbParams], by simp [sbParams]⟩,
    dynamic_field_nonneg sbParams sbNodes none sbRng sbRng 0
      (by simp [sbParams]) (by simp [sbParams]) (by simp [sbParams]) 3 _⟩

/-- Claim C8: for every engine state, draw stream and cell, the congestion
value after a `step()` call is at least its value before the call (the only
operation that ever lowers it is `reset()`). -/
theorem congestion_monotone (e : Engine) (rng : ℕ → ℚ) (k : ℕ) (c : Cell) :
    e.congestionMap c ≤ (stepEngine e rng k).1.congestionMap c := by
  simpa [stepEngine] using
    processAgents_cong_le e rng e.agents ⟨e.dynamicField, e.congestionMap⟩ k c

/-!
## Claim C3: Scenario B

The agent's movement is governed by the static field, which attracts it to
the NEAREST node — the entry node right beside it — not to its assigned
bin target.  Under the all-zeros draw stream the selection always picks
the first candidate, and the agent oscillates between the cells (0,0) and
(0,1) forever, never approaching the bin.
-/

theorem candWeight_nonneg (p : SimulationParams) (S : ℕ∞) (Dv u : ℚ) :
    0 ≤ candWeight p S Dv u := by
  unfold candWeight
  split
  · exact le_rfl
  · exact (Real.exp_pos _).le

theorem drawWeights_nonneg (p : SimulationParams) (static : Cell → ℕ∞)
    (dyn : Cell → ℚ) (rng : ℕ → ℚ) :
    ∀ (l : List Cell) (k : ℕ),
      ∀ w ∈ (drawWeights p static dyn rng k l).map Prod.snd, 0 ≤ w := by
  intro l
  induction l with
  | nil => intro k w hw; simp [drawWeights] at hw
  | cons n rest ih =>
      intro k w hw
      simp only [drawWeights, List.map_cons, List.mem_cons] at hw
      rcases hw with rfl | hw
      · exact candWeight_nonneg p _ _ _
      · exact ih (k + 1) w hw

/-- When the selection draw is 0 and the first candidate has finite static
value, the cumulative inversion always returns the first candidate. -/
theorem selectNextCell_zero_draw (p : SimulationParams) (static : Cell → ℕ∞)
    (dyn : Cell → ℚ) (obst : Cell → Bool) (rows cols : ℤ) (rng : ℕ → ℚ)
    (row col : ℤ) (k : ℕ) (c1 : Cell) (rest1 : List Cell)
    (hfil : (getNeighbors rows cols row col).filter (fun n => !obst n)
      = c1 :: rest1)
    (h1 : static c1 ≠ ⊤)
    (hdraw : rng (k + (c1 :: rest1).length) = 0) :
    selectNextCell p static dyn obst rows cols rng row col k
      = (some c1, k + (c1 :: rest1).length + 1) := by
  unfold selectNextCell
  rw [collectCandidates_eq, hfil]
  simp only [drawWeights, List.map_cons, List.sum_cons]
  have hw1 : 0 < candWeight p (static c1) (dyn c1) (rng k) :=
    candWeight_pos p h1 _ _
  have hsum : 0 ≤ ((drawWeights p static dyn rng (k + 1) rest1).map Prod.snd).sum :=
    List.sum_nonneg (drawWeights_nonneg p static dyn rng rest1 (k + 1))
  have htot : 0 < candWeight p (static c1) (dyn c1) (rng k)
      + ((drawWeights p static dyn rng (k + 1) rest1).map Prod.snd).sum := by
    linarith
  rw [if_neg (ne_of_gt htot)]
  rw [hdraw]
  simp only [Rat.cast_zero, zero_mul, cdfPick]
  rw [if_pos (by linarith)]

theorem sbStart_eq : sbStart = (sbEngine0, 2) := by
  have hrows : gridRowsOf sbParams = 10 := by norm_num [gridRowsOf, sbParams]
  have hcols : gridColsOf sbParams = 10 := by norm_num [gridColsOf, sbParams]
  have h1 : worldToGrid sbParams.gridSize 10 10 = ((0 : ℤ), (0 : ℤ)) := by
    norm_num [worldToGrid, sbParams]
  have h2 : worldToGrid sbParams.gridSize 190 190 = ((9 : ℤ), (9 : ℤ)) := by
    norm_num [worldToGrid, sbParams]
  have hseeds : seedsOf sbParams.gridSize 10 10 sbNodes
      = [((0 : ℤ), (0 : ℤ)), ((9 : ℤ), (9 : ℤ))] := by
    simp only [seedsOf, sbNodes, List.map_cons, List.map_nil]
    rw [h1, h2]
    decide
  have hid : ("agent-" ++ toString (0 : ℕ)) = "agent-0" := by decide
  have hidx1 : listIdx (sbNodes.filter (fun n => n.type = NodeType.entryExit))
      ⌊sbRng 0 * (((sbNodes.filter (fun n => n.type = NodeType.entryExit)).length : ℕ) : ℚ)⌋
      = some { id := "n0", x := 10, y := 10, type := NodeType.entryExit } := by
    have hf : sbNodes.filter (fun n => n.type = NodeType.entryExit)
        = [{ id := "n0", x := 10, y := 10, type := NodeType.entryExit }] := by
      decide
    rw [hf]
    have hfl : ⌊sbRng 0 * ((1 : ℕ) : ℚ)⌋ = 0 := by norm_num [sbRng]
    simp only [List.length_cons, List.length_nil]
    rw [hfl]
    rfl
  have hidx2 : listIdx (sbNodes.filter
        (fun n => n.type = NodeType.entryExit ∨ n.type = NodeType.bin))
      ⌊sbRng 1 * (((sbNodes.filter
        (fun n => n.type = NodeType.entryExit ∨ n.type = NodeType.bin)).length : ℕ) : ℚ)⌋
      = some { id := "n1", x := 190, y := 190, type := NodeType.bin } := by
    have hf : sbNodes.filter (fun n => n.type = NodeType.entryExit ∨ n.type = NodeType.bin)
        = [{ id := "n0", x := 10, y := 10, type := NodeType.entryExit },
           { id := "n1", x := 190, y := 190, type := NodeType.bin }] := by
      decide
    rw [hf]
    have hfl : ⌊sbRng 1 * ((2 : ℕ) : ℚ)⌋ = 1 := by norm_num [sbRng]
    simp only [List.length_cons, List.length_nil]
    rw [hfl]
    rfl
  have hspawn : spawnAgents sbParams sbNodes sbRng 0 = ([sbAgent], 2) := by
    unfold spawnAgents
    rw [show sbParams.numAgents = 1 from rfl]
    simp only [spawnLoop]
    rw [hidx1, hidx2]
    simp only [sbAgent, hid]
  unfold sbStart mkEngine sbEngine0
  simp only [hrows, hcols, hseeds, hspawn]
  rfl

theorem sbStatic_01_ne_top : sbStatic ((0 : ℤ), (1 : ℤ)) ≠ ⊤ := by
  unfold sbStatic
  rw [computeStaticFieldAux_eq_distSpec]
  have h1 : (1 : ℕ) ∈ distSet 10 10 (obstacleAt (defaultObstacleGrid 10 10))
      [((0 : ℤ), (0 : ℤ)), ((9 : ℤ), (9 : ℤ))] ((0 : ℤ), (1 : ℤ)) := by
    refine ⟨((0 : ℤ), (0 : ℤ)), by simp, ?_⟩
    exact ReachesIn.step (ReachesIn.refl _) (by decide) (by decide)
  have hle := distSpec_le h1
  exact (lt_of_le_of_lt hle (ENat.coe_lt_top 1)).ne

theorem sbStatic_00_ne_top : sbStatic ((0 : ℤ), (0 : ℤ)) ≠ ⊤ := by
  unfold sbStatic
  rw [computeStaticFieldAux_eq_distSpec]
  rw [distSpec_seed (by simp)]
  simp

set_option maxRecDepth 4000 in
set_option maxHeartbeats 2000000 in
/-- One Scenario B step from the even position (cell (0,0)): the agent
moves to cell (0,1) — drawn toward the nearest node, the entry — and
consumes four draws. -/
theorem sb_step_even (D : Cell → ℚ) (C : Cell → ℕ) (sc k : ℕ)
    (path : List (ℚ × ℚ)) (dist : ℝ) :
    ∃ (D2 : Cell → ℚ) (C2 : Cell → ℕ) (dist2 : ℝ),
      stepEngine
        { params := sbParams
          agents := [{ id := "agent-0", x := 10, y := 10, targetNodeId := "n1",
                       path := path, distanceTraveled := dist }]
          staticField := sbStatic
          dynamicField := D
          obstacleGrid := defaultObstacleGrid 10 10
          nodes := sbNodes
          gridRows := 10
          gridCols := 10
          stepCount := sc
          congestionMap := C } sbRng k
      = ({ params := sbParams
           agents := [{ id := "agent-0", x := 30, y := 10, targetNodeId := "n1",
                        path := path ++ [(30, 10)], distanceTraveled := dist2 }]
           staticField := sbStatic
           dynamicField := D2
           obstacleGrid := defaultObstacleGrid 10 10
           nodes := sbNodes
           gridRows := 10
           gridCols := 10
           stepCount := sc + 1
           congestionMap := C2 }, k + 4) := by
  have hgs : sbParams.gridSize = 20 := rfl
  have hwg : worldToGrid (20 : ℚ) 10 10 = ((0 : ℤ), (0 : ℤ)) := by
    norm_num [worldToGrid]
  have hfil : (getNeighbors 10 10 0 0).filter
      (fun n => !obstacleAt (defaultObstacleGrid 10 10) n)
      = [((0 : ℤ), (1 : ℤ)), ((1 : ℤ), (0 : ℤ)), ((1 : ℤ), (1 : ℤ))] := by decide
  have hdraw : sbRng (k + 3) = 0 := by
    have hne : ¬ (k + 3 = 1) := by omega
    simp [sbRng, hne]
  have hg : gridToWorld (20 : ℚ) ((0 : ℤ), (1 : ℤ)) = (30, 10) := by
    norm_num [gridToWorld]
  have hfind : List.find? (fun n => decide (n.id = ("n1" : String))) sbNodes
      = some { id := "n1", x := 190, y := 190, type := NodeType.bin } := by decide
  have hval : (((30 : ℚ) - 190 : ℚ) : ℝ)^2 + (((10 : ℚ) - 190 : ℚ) : ℝ)^2
      = 58000 := by
    push_cast
    norm_num
  have hfar : ¬ (Real.sqrt ((((30 : ℚ) - 190 : ℚ) : ℝ)^2
      + (((10 : ℚ) - 190 : ℚ) : ℝ)^2) < ((20 : ℚ) : ℝ) * 2) := by
    rw [hval]
    have h40 : ((20 : ℚ) : ℝ) * 2 = 40 := by norm_num
    rw [h40]
    exact not_lt.mpr ((Real.le_sqrt (by norm_num) (by norm_num)).mpr (by norm_num))
  refine ⟨updateDynamicField sbParams 10 10
      (depositAt 10 10 ((0 : ℤ), (0 : ℤ)) ⟨D, C⟩).dyn,
    (depositAt 10 10 ((0 : ℤ), (0 : ℤ)) ⟨D, C⟩).cong,
    dist + Real.sqrt ((((30 : ℚ) - 10 : ℚ) : ℝ)^2 + (((10 : ℚ) - 10 : ℚ) : ℝ)^2),
    ?_⟩
  simp only [stepEngine, processAgents, agentStep, agentMoveRetarget, hgs, hwg]
  rw [selectNextCell_zero_draw sbParams sbStatic _ _ 10 10 sbRng 0 0 k
    ((0 : ℤ), (1 : ℤ)) [((1 : ℤ), (0 : ℤ)), ((1 : ℤ), (1 : ℤ))] hfil
    sbStatic_01_ne_top hdraw]
  simp only [hg, hfind, hfar, if_false, List.length_cons, List.length_nil]

set_option maxRecDepth 4000 in
set_option maxHeartbeats 2000000 in
/-- One Scenario B step from the odd position (cell (0,1)): the agent
moves straight back to cell (0,0) and consumes six draws. -/
theorem sb_step_odd (D : Cell → ℚ) (C : Cell → ℕ) (sc k : ℕ)
    (path : List (ℚ × ℚ)) (dist : ℝ) :
    ∃ (D2 : Cell → ℚ) (C2 : Cell → ℕ) (dist2 : ℝ),
      stepEngine
        { params := sbParams
          agents := [{ id := "agent-0", x := 30, y := 10, targetNodeId := "n1",
                       path := path, distanceTraveled := dist }]
          staticField := sbStatic
          dynamicField := D
          obstacleGrid := defaultObstacleGrid 10 10
          nodes := sbNodes
          gridRows := 10
          gridCols := 10
          stepCount := sc
          congestionMap := C } sbRng k
      = ({ params := sbParams
           agents := [{ id := "agent-0", x := 10, y := 10, targetNodeId := "n1",
                        path := path ++ [(10, 10)], distanceTraveled := dist2 }]
           staticField := sbStatic
           dynamicField := D2
           obstacleGrid := defaultObstacleGrid 10 10
           nodes := sbNodes
           gridRows := 10
           gridCols := 10
           stepCount := sc + 1
           congestionMap := C2 }, k + 6) := by
  have hgs : sbParams.gridSize = 20 := rfl
  have hwg : worldToGrid (20 : ℚ) 30 10 = ((0 : ℤ), (1 : ℤ)) := by
    norm_num [worldToGrid]
  have hfil : (getNeighbors 10 10 0 1).filter
      (fun n => !obstacleAt (defaultObstacleGrid 10 10) n)
      = [((0 : ℤ), (0 : ℤ)), ((0 : ℤ), (2 : ℤ)), ((1 : ℤ), (0 : ℤ)),
         ((1 : ℤ), (1 : ℤ)), ((1 : ℤ), (2 : ℤ))] := by decide
  have hdraw : sbRng (k + 5) = 0 := by
    have hne : ¬ (k + 5 = 1) := by omega
    simp [sbRng, hne]
  have hg : gridToWorld (20 : ℚ) ((0 : ℤ), (0 : ℤ)) = (10, 10) := by
    norm_num [gridToWorld]
  have hfind : List.find? (fun n => decide (n.id = ("n1" : String))) sbNodes
      = some { id := "n1", x := 190, y := 190, type := NodeType.bin } := by decide
  have hval : (((10 : ℚ) - 190 : ℚ) : ℝ)^2 + (((10 : ℚ) - 190 : ℚ) : ℝ)^2
      = 64800 := by
    push_cast
    norm_num
  have hfar : ¬ (Real.sqrt ((((10 : ℚ) - 190 : ℚ) : ℝ)^2
      + (((10 : ℚ) - 190 : ℚ) : ℝ)^2) < ((20 : ℚ) : ℝ) * 2) := by
    rw [hval]
    have h40 : ((20 : ℚ) : ℝ) * 2 = 40 := by norm_num
    rw [h40]
    exact not_lt.mpr ((Real.le_sqrt (by norm_num) (by norm_num)).mpr (by norm_num))
  refine ⟨updateDynamicField sbParams 10 10
      (depositAt 10 10 ((0 : ℤ), (1 : ℤ)) ⟨D, C⟩).dyn,
    (depositAt 10 10 ((0 : ℤ), (1 : ℤ)) ⟨D, C⟩).cong,
    dist + Real.sqrt ((((10 : ℚ) - 30 : ℚ) : ℝ)^2 + (((10 : ℚ) - 10 : ℚ) : ℝ)^2),
    ?_⟩
  simp only [stepEngine, processAgents, agentStep, agentMoveRetarget, hgs, hwg]
  rw [selectNextCell_zero_draw sbParams sbStatic _ _ 10 10 sbRng 0 1 k
    ((0 : ℤ), (0 : ℤ)) [((0 : ℤ), (2 : ℤ)), ((1 : ℤ), (0 : ℤ)),
      ((1 : ℤ), (1 : ℤ)), ((1 : ℤ), (2 : ℤ))] hfil
    sbStatic_00_ne_top hdraw]
  simp only [hg, hfind, hfar, if_false, List.length_cons, List.length_nil]

theorem sb_oscillation_aux : ∀ n : ℕ,
    ∃ (D : Cell → ℚ) (C : Cell → ℕ) (path : List (ℚ × ℚ)) (dist : ℝ) (kk : ℕ),
      sbRun n = (sbShape n D C path dist, kk) := by
  intro n
  induction n with
  | zero =>
      refine ⟨fun _ => 0, fun _ => 0, [], 0, 2, ?_⟩
      rw [show sbRun 0 = sbStart from rfl, sbStart_eq]
      rfl
  | succ n ih =>
      obtain ⟨D, C, path, dist, kk, heq⟩ := ih
      have hstep : sbRun (n + 1) = stepEngine (sbRun n).1 sbRng (sbRun n).2 := rfl
      rcases Nat.even_or_odd n with he | ho
      · have hn2 : n % 2 = 0 := Nat.even_iff.mp he
        have hp : oscPos n = (10, 10) := by simp [oscPos, hn2]
        have hp1 : oscPos (n + 1) = (30, 10) := by
          have h1 : (n + 1) % 2 = 1 := by omega
          simp [oscPos, h1]
        obtain ⟨D2, C2, dist2, hs⟩ := sb_step_even D C n kk path dist
        refine ⟨D2, C2, path ++ [(30, 10)], dist2, kk + 4, ?_⟩
        rw [hstep, heq]
        simp only [sbShape, hp, hp1]
        exact hs
      · have hn2 : n % 2 = 1 := Nat.odd_iff.mp ho
        have hp : oscPos n = (30, 10) := by simp [oscPos, hn2]
        have hp1 : oscPos (n + 1) = (10, 10) := by
          have h1 : (n + 1) % 2 = 0 := by omega
          simp [oscPos, h1]
        obtain ⟨D2, C2, dist2, hs⟩ := sb_step_odd D C n kk path dist
        refine ⟨D2, C2, path ++ [(10, 10)], dist2, kk + 6, ?_⟩
        rw [hstep, heq]
        simp only [sbShape, hp, hp1]
        exact hs

/-- Claim C3, amended: in Scenario B the movement is driven by the static
field toward the nearest node (the entry the agent stands on), and the
target plays no role in movement, so the agent need not approach the bin:
under the all-zeros draw outcome the agent oscillates forever between the
centres of cells (0,0) and (0,1), one cell per step, never following a
minimal-hop path to the bin. -/
theorem scenarioB_oscillation (n : ℕ) :
    (sbRun n).1.agents.map (fun a => (a.x, a.y)) = [oscPos n] := by
  obtain ⟨D, C, path, dist, kk, heq⟩ := sb_oscillation_aux n
  rw [heq]
  simp [sbShape]

/-- Claim C3, counterexample: under the concrete draw stream `sbRng` the
Scenario B agent never comes within the target radius of the bin node in
the first 9 advance calls, refuting the claim that it reaches the bin
within 9 steps for every outcome of the draws. -/
theorem scenarioB_not_reach_bin_counterexample : ¬ sbReachedBinWithin 9 := by
  rintro ⟨m, hm, a, ha, hlt⟩
  obtain ⟨D, C, path, dist, kk, heq⟩ := sb_oscillation_aux m
  rw [heq] at ha
  simp only [sbShape, List.mem_singleton] at ha
  subst ha
  have hgs2 : ((sbParams.gridSize : ℚ) : ℝ) = 20 := by norm_num [sbParams]
  rw [hgs2] at hlt
  dsimp only at hlt
  rcases Nat.even_or_odd m with he | ho
  · have hp : oscPos m = (10, 10) := by simp [oscPos, Nat.even_iff.mp he]
    rw [hp] at hlt
    dsimp only at hlt
    have hval : (((10 : ℚ) - 190 : ℚ) : ℝ)^2 + (((10 : ℚ) - 190 : ℚ) : ℝ)^2
        = 64800 := by
      push_cast
      norm_num
    rw [hval] at hlt
    have h40 : (20 : ℝ) * 2 = 40 := by norm_num
    rw [h40] at hlt
    exact absurd hlt (not_lt.mpr
      ((Real.le_sqrt (by norm_num) (by norm_num)).mpr (by norm_num)))
  · have hp : oscPos m = (30, 10) := by simp [oscPos, Nat.odd_iff.mp ho]
    rw [hp] at hlt
    dsimp only at hlt
    have hval : (((30 : ℚ) - 190 : ℚ) : ℝ)^2 + (((10 : ℚ) - 190 : ℚ) : ℝ)^2
        = 58000 := by
      push_cast
      norm_num
    rw [hval] at hlt
    have h40 : (20 : ℝ) * 2 = 40 := by norm_num
    rw [h40] at hlt
    exact absurd hlt (not_lt.mpr
      ((Real.le_sqrt (by norm_num) (by norm_num)).mpr (by norm_num)))

end CleanFlow
